import Mathlib

/-!
Verification of the Miden processor decoder-trace builder, block executor and
assembler parsers against their natural-language specification.

The Rust sources under `src/` are shallowly embedded below.  Machine integers
become `Nat` (with explicit wrap-around where the source relies on `u64`
wrapping), field elements become `ZMod P` for the 64-bit prime field, fallible
functions return a pair of the mutated sink/state together with an optional
error (mirroring `&mut self`-style mutation that persists across an `Err`
return), and the recursive block interpreter takes an explicit fuel argument.

Constants and items that live in crates not present under `src/`
(`vm_core`: the `Operation` enum with `op_code`/`imm_value`, the field type,
`HASHER_WIDTH`, `NUM_OP_BITS`; `assembly/src/parsers/mod.rs`: `Token`,
`validate_op_len`, `parse_int_param`, `parse_element_param`;
`processor/src/operations`: `execute_op`) are modelled from the spec; each such
definition carries a doc comment saying so.
-/

set_option maxRecDepth 2000

namespace Miden

/-- Modelled from the spec: the order of the 64-bit prime field (`p ≈ 2^64`);
the concrete finite-field crate is not under `src/`.  We use the standard
Goldilocks prime `2^64 - 2^32 + 1`. -/
abbrev P : Nat := 18446744069414584321

/-- A field element; `Felt` in the source. -/
abbrev Felt := ZMod P

/-- Modelled from the spec: `NUM_OP_BITS`, the number of bits of an opcode
(default 7); the constant lives in `vm_core`, not under `src/`. -/
def NUM_OP_BITS : Nat := 7

/-- Modelled from the spec: `HASHER_WIDTH` (= 12) hasher-state columns; the
constant lives in `vm_core`, not under `src/`. -/
def HASHER_WIDTH : Nat := 12

/-- `OP_BATCH_SIZE = 8`, from `decoder/trace.rs`. -/
def OP_BATCH_SIZE : Nat := 8

/-- `OP_GROUP_IDX = 0`, from `decoder/trace.rs`. -/
def OP_GROUP_IDX : Fin 12 := 0

/-- A word is `[F; 4]`. -/
abbrev Word := Fin 4 → Felt

/-- Modelled from the spec: the primitive-operation enum of `vm_core` (not
under `src/`).  The variants are the ones the spec's data model names, plus a
`Debug` decorator standing for the decorator variants (`AdviceInjector`,
`DebugOptions`) that `execute_op_batch` skips when decoding. -/
inductive Operation where
  | Noop
  | Pad
  | Incr
  | Drop
  | MovUp4
  | Push (imm : Felt)
  | Read
  | ReadW
  | LoadW
  | StoreW
  | SDepth
  | Join
  | Split
  | Loop
  | Span
  | Respan
  | End
  | Halt
  | Debug
  deriving DecidableEq, Repr

namespace Operation

/-- Modelled from the spec: each non-decorator op has an opcode fitting in
`NUM_OP_BITS` (7) bits; decorators have none.  The spec does not fix the
numeric values, except that an all-zero op group must decode to `Noop`s
(op groups pack opcodes by radix `2^7` and padding groups are zero), which
forces `op_code Noop = 0`.  The remaining values are an arbitrary distinct
assignment; no claim depends on them. -/
def op_code : Operation → Option Nat
  | .Noop => some 0
  | .Pad => some 1
  | .Incr => some 2
  | .Drop => some 3
  | .MovUp4 => some 4
  | .Push _ => some 5
  | .Read => some 6
  | .ReadW => some 7
  | .LoadW => some 8
  | .StoreW => some 9
  | .SDepth => some 10
  | .Join => some 11
  | .Split => some 12
  | .Loop => some 13
  | .Span => some 14
  | .Respan => some 15
  | .End => some 16
  | .Halt => some 17
  | .Debug => none

/-- The opcode with the `.expect("missing opcode")` panic modelled as a
default of `0` (never reached by the developments below: decorators are never
decoded). -/
def op_codeD (op : Operation) : Nat := (op.op_code).getD 0

/-- Modelled from the spec: the immediate-value predicate; `Push` is the only
modelled operation carrying an immediate. -/
def imm_value : Operation → Option Felt
  | .Push a => some a
  | _ => none

/-- Modelled from the spec: decorator predicate. -/
def is_decorator : Operation → Bool
  | .Debug => true
  | _ => false

end Operation

/-! ### Span cursor (`decoder/trace.rs`, `SpanCursor`) -/

/-- `SpanCursor` from `decoder/trace.rs`. -/
structure SpanCursor where
  last_op : Operation
  op_groups : Fin 8 → Felt
  group_idx : Nat
  next_group_idx : Nat
  deriving DecidableEq

namespace SpanCursor

/-- `SpanCursor::default`. -/
def default : SpanCursor :=
  { last_op := .Noop, op_groups := fun _ => 0, group_idx := 0, next_group_idx := 0 }

/-- Indexing `op_groups[i]`; the out-of-bounds panic is modelled as `0`
(never reached in the developments below). -/
def groupAt (c : SpanCursor) (i : Nat) : Felt :=
  if h : i < 8 then c.op_groups ⟨i, h⟩ else 0

/-- `SpanCursor::set_batch`. -/
def set_batch (c : SpanCursor) (batch : Fin 8 → Felt) : SpanCursor :=
  { c with op_groups := batch, group_idx := 0, next_group_idx := 1 }

/-- `SpanCursor::new_span`. -/
def new_span (c : SpanCursor) (first_op_batch : Fin 8 → Felt) : SpanCursor :=
  ({ c with last_op := .Span }).set_batch first_op_batch

/-- `SpanCursor::respan`. -/
def respan (c : SpanCursor) (op_batch : Fin 8 → Felt) : SpanCursor :=
  ({ c with last_op := .Respan }).set_batch op_batch

/-- `SpanCursor::set_op`. -/
def set_op (c : SpanCursor) (op : Operation) : SpanCursor := { c with last_op := op }

/-- `SpanCursor::read_group`: advances the cursor and returns the value read. -/
def read_group (c : SpanCursor) : Felt × SpanCursor :=
  let c' := { c with group_idx := c.next_group_idx, next_group_idx := c.next_group_idx + 1 }
  (c'.groupAt c'.group_idx, c')

/-- `SpanCursor::read_imm_value`: returns the value at `next_group_idx` and
advances it. -/
def read_imm_value (c : SpanCursor) : Felt × SpanCursor :=
  (c.groupAt c.next_group_idx, { c with next_group_idx := c.next_group_idx + 1 })

end SpanCursor

/-! ### Decoder trace (`decoder/trace.rs`, `DecoderTrace`) -/

/-- `DecoderTrace` from `decoder/trace.rs`: one address column, `NUM_OP_BITS`
op-bit columns, an in-span column, `HASHER_WIDTH` hasher columns, one
op-group-count column, and the span cursor. -/
structure DecoderTrace where
  addr_trace : List Felt
  op_bits_trace : Fin 7 → List Felt
  in_span_trace : List Felt
  hasher_trace : Fin 12 → List Felt
  group_count_trace : List Felt
  span_cursor : SpanCursor
  deriving DecidableEq

namespace DecoderTrace

/-- `DecoderTrace::new` (capacities are irrelevant to the embedding). -/
def new : DecoderTrace :=
  { addr_trace := [], op_bits_trace := fun _ => [], in_span_trace := [],
    hasher_trace := fun _ => [], group_count_trace := [],
    span_cursor := SpanCursor.default }

/-- `DecoderTrace::last_addr`, with the `.expect` panic modelled as `0`. -/
def last_addr (t : DecoderTrace) : Felt := t.addr_trace.getLastD 0

/-- `DecoderTrace::last_op_group`, with the `.expect` panic modelled as `0`. -/
def last_op_group (t : DecoderTrace) : Felt := (t.hasher_trace OP_GROUP_IDX).getLastD 0

/-- `DecoderTrace::last_group_count`, with the `.expect` panic modelled as `0`. -/
def last_group_count (t : DecoderTrace) : Felt := t.group_count_trace.getLastD 0

/-- `DecoderTrace::append_opcode`: pushes the `i`-th bit of the opcode onto
the `i`-th op-bits column. -/
def append_opcode (t : DecoderTrace) (op : Operation) : DecoderTrace :=
  { t with
    op_bits_trace := fun i => t.op_bits_trace i ++ [(((op.op_codeD >>> i.val) &&& 1 : Nat) : Felt)] }

/-- `DecoderTrace::append_row`: a control-flow row; hasher columns 0–3 receive
`h1`, columns 4–7 receive `h2` (the source pushes nothing onto columns 8–11). -/
def append_row (t : DecoderTrace) (addr : Felt) (op : Operation) (h1 h2 : Word) : DecoderTrace :=
  let t1 := (({ t with addr_trace := t.addr_trace ++ [addr] }).append_opcode op)
  { t1 with
    hasher_trace := fun i =>
      if h : i.val < 4 then t1.hasher_trace i ++ [h1 ⟨i.val, h⟩]
      else if h8 : i.val < 8 then t1.hasher_trace i ++ [h2 ⟨i.val - 4, by omega⟩]
      else t1.hasher_trace i,
    in_span_trace := t1.in_span_trace ++ [0],
    group_count_trace := t1.group_count_trace ++ [0] }

/-- `DecoderTrace::append_span_start`: opcode `Span`, `in_span = 0`, hasher
columns 0–7 receive the first op batch (the source pushes nothing onto
columns 8–11), group count set to the total group count of the span, and the
span cursor re-seeded. -/
def append_span_start (t : DecoderTrace) (parent_addr : Felt)
    (first_op_batch : Fin 8 → Felt) (num_span_groups : Felt) : DecoderTrace :=
  let t1 := (({ t with addr_trace := t.addr_trace ++ [parent_addr] }).append_opcode .Span)
  { t1 with
    in_span_trace := t1.in_span_trace ++ [0],
    hasher_trace := fun i =>
      if h : i.val < 8 then t1.hasher_trace i ++ [first_op_batch ⟨i.val, h⟩]
      else t1.hasher_trace i,
    group_count_trace := t1.group_count_trace ++ [num_span_groups],
    span_cursor := t1.span_cursor.new_span first_op_batch }

/-- Wrapping `u64` subtraction, mirroring `op_group.as_int() - opcode` in the
source (release-profile two's-complement wrap); `b` is an opcode, so `b < 2^64`. -/
def wsub64 (a b : Nat) : Nat := (a + (2 ^ 64 - b)) % 2 ^ 64

/-- `DecoderTrace::append_user_op` from `decoder/trace.rs` lines 99–136. -/
def append_user_op (t : DecoderTrace) (span_addr : Felt) (op : Operation) : DecoderTrace :=
  let t1 := (({ t with addr_trace := t.addr_trace ++ [span_addr] }).append_opcode op)
  let t1 := { t1 with in_span_trace := t1.in_span_trace ++ [1] }
  let last_op_group := t1.last_op_group
  let pr := if last_op_group = 0 then t1.span_cursor.read_group else (last_op_group, t1.span_cursor)
  let op_group := pr.1
  let cur1 := pr.2
  let opcode := op.op_codeD
  let new_op_group : Felt := ((wsub64 op_group.val opcode >>> NUM_OP_BITS : Nat) : Felt)
  let t2 := { t1 with
    hasher_trace := fun i =>
      if i = OP_GROUP_IDX then t1.hasher_trace i ++ [new_op_group]
      else t1.hasher_trace i ++ [0],
    span_cursor := cur1 }
  let last_op := t2.span_cursor.last_op
  let last_group_count := t2.last_group_count
  let t3 :=
    if last_op = .Span ∨ last_op = .Respan then
      { t2 with group_count_trace := t2.group_count_trace ++ [last_group_count - 1] }
    else if (last_op.imm_value).isSome then
      { t2 with
        span_cursor := (t2.span_cursor.read_imm_value).2,
        group_count_trace := t2.group_count_trace ++ [last_group_count - 1] }
    else if last_op_group = 0 then
      { t2 with group_count_trace := t2.group_count_trace ++ [last_group_count - 1] }
    else
      { t2 with group_count_trace := t2.group_count_trace ++ [last_group_count] }
  { t3 with span_cursor := t3.span_cursor.set_op op }

/-- `DecoderTrace::append_respan`. -/
def append_respan (t : DecoderTrace) (op_batch : Fin 8 → Felt) : DecoderTrace :=
  let t1 := (({ t with addr_trace := t.addr_trace ++ [t.last_addr] }).append_opcode .Respan)
  { t1 with
    in_span_trace := t1.in_span_trace ++ [1],
    hasher_trace := fun i =>
      if h : i.val < 8 then t1.hasher_trace i ++ [op_batch ⟨i.val, h⟩]
      else t1.hasher_trace i,
    group_count_trace := t1.group_count_trace ++ [t1.last_group_count],
    span_cursor := t1.span_cursor.respan op_batch }

/-- `DecoderTrace::append_span_end` from `decoder/trace.rs` lines 163–184:
hasher columns 0–3 receive the span hash, columns 4–7 receive
`[is_loop_body, 0, 0, 0]`, and the group count of the previous row is copied
over unchanged (the `debug_assert` that it is zero is commented out in the
source). -/
def append_span_end (t : DecoderTrace) (span_hash : Word) (is_loop_body : Felt) : DecoderTrace :=
  let t1 := (({ t with addr_trace := t.addr_trace ++ [t.last_addr] }).append_opcode .End)
  { t1 with
    in_span_trace := t1.in_span_trace ++ [0],
    hasher_trace := fun i =>
      if h : i.val < 4 then t1.hasher_trace i ++ [span_hash ⟨i.val, h⟩]
      else if _h8 : i.val < 8 then
        t1.hasher_trace i ++ [if i.val = 4 then is_loop_body else 0]
      else t1.hasher_trace i,
    group_count_trace := t1.group_count_trace ++ [t1.last_group_count] }

/-- `Vec::resize(trace_len, value)`: truncate or pad with `value` to reach
exactly `trace_len` entries. -/
def fillResize (l : List Felt) (n : Nat) (v : Felt) : List Felt :=
  l.take n ++ List.replicate (n - l.length) v

/-- `DecoderTrace::into_vec` from `decoder/trace.rs` lines 190–216: resize the
address column with `ZERO`, each op-bits column with the matching bit of the
`Halt` opcode, and the in-span, hasher and group-count columns with `ZERO`;
return the columns in order. -/
def into_vec (t : DecoderTrace) (trace_len : Nat) (_num_rand_rows : Nat) : List (List Felt) :=
  [fillResize t.addr_trace trace_len 0]
    ++ (List.finRange 7).map
        (fun i => fillResize (t.op_bits_trace i) trace_len
          (((Operation.Halt.op_codeD >>> i.val) &&& 1 : Nat) : Felt))
    ++ [fillResize t.in_span_trace trace_len 0]
    ++ (List.finRange 12).map (fun i => fillResize (t.hasher_trace i) trace_len 0)
    ++ [fillResize t.group_count_trace trace_len 0]

end DecoderTrace

/-! ### Op batches and code blocks (`vm_core::program`, modelled from the spec) -/

/-- Modelled from the spec: an `OpBatch` of a span block (`vm_core` is not
under `src/`): the decoded operations, the per-group decoded-op counts, the
8 packed op-groups, and the number of used groups.  The accessors `ops()`,
`op_counts()`, `groups()` and `num_groups()` of the source are the fields. -/
structure OpBatch where
  ops : List Operation
  op_counts : List Nat
  groups : Fin 8 → Felt
  num_groups : Nat

/-- Modelled from the spec: the code-block tree.  Each node carries its
precomputed Merkle hash (the hash computation itself lives in `vm_core`,
outside `src/`, and no claim depends on it). -/
inductive CodeBlock where
  | join (first second : CodeBlock) (hash : Word)
  | split (on_true on_false : CodeBlock) (hash : Word)
  | loop (body : CodeBlock) (hash : Word)
  | span (op_batches : List OpBatch) (hash : Word)
  | proxy (hash : Word)

namespace CodeBlock

/-- The stored hash of a block. -/
def hash : CodeBlock → Word
  | .join _ _ h => h
  | .split _ _ h => h
  | .loop _ h => h
  | .span _ h => h
  | .proxy h => h

end CodeBlock

/-- Rust `usize::next_power_of_two` (`0` maps to `1`): the smallest power of
two that is at least `n`, computed by doubling (64 doublings suffice for any
`u64`-sized argument, matching the Rust type's range). -/
def nextPow2 (n : Nat) : Nat :=
  (List.range 64).foldl (fun acc _ => if acc < n then acc * 2 else acc) 1

/-- `get_group_count` from `decoder/mod.rs`: the total number of op groups
over all batches of a span, as a field element. -/
def get_group_count (op_batches : List OpBatch) : Felt :=
  ((op_batches.foldl (fun acc b => acc + b.num_groups) 0 : Nat) : Felt)

/-! ### Block stack and decoder (`decoder/mod.rs`) -/

/-- `BlockInfo` from `decoder/mod.rs`. -/
structure BlockInfo where
  addr : Felt
  parent_addr : Felt
  deriving DecidableEq

/-- `BlockStack` from `decoder/mod.rs`, embedded as the list of its blocks
(last element = top of stack). -/
structure BlockStack where
  blocks : List BlockInfo
  deriving DecidableEq

namespace BlockStack

/-- `BlockStack::new`. -/
def new : BlockStack := ⟨[]⟩

/-- `BlockStack::push`: returns the parent address (`ZERO` when empty) and the
new stack. -/
def push (s : BlockStack) (addr : Felt) : Felt × BlockStack :=
  let parent_addr := if s.blocks.isEmpty then 0 else (s.blocks.getLastD ⟨0, 0⟩).addr
  (parent_addr, ⟨s.blocks ++ [⟨addr, parent_addr⟩]⟩)

/-- `BlockStack::pop`, with the empty-stack panic modelled as a default
`BlockInfo` of zeros (never reached in the developments below). -/
def pop (s : BlockStack) : BlockInfo × BlockStack :=
  ((s.blocks.getLastD ⟨0, 0⟩), ⟨s.blocks.dropLast⟩)

/-- `BlockStack::peek_addr`, with the empty-stack panic modelled as `0`. -/
def peek_addr (s : BlockStack) : Felt := (s.blocks.getLastD ⟨0, 0⟩).addr

end BlockStack

/-- `Decoder` from `decoder/mod.rs`: the block stack and the decoder trace. -/
structure Decoder where
  block_stack : BlockStack
  trace : DecoderTrace
  deriving DecidableEq

namespace Decoder

/-- `Decoder::new`. -/
def new : Decoder := ⟨BlockStack.new, DecoderTrace.new⟩

/-- `Decoder::start_join`. -/
def start_join (d : Decoder) (first second : CodeBlock) (addr : Felt) : Decoder :=
  let (parent_addr, stack) := d.block_stack.push addr
  ⟨stack, d.trace.append_row parent_addr .Join first.hash second.hash⟩

/-- `Decoder::end_join`. -/
def end_join (d : Decoder) (block_hash : Word) : Decoder :=
  let (info, stack) := d.block_stack.pop
  ⟨stack, d.trace.append_row info.addr .End block_hash (fun _ => 0)⟩

/-- `Decoder::start_split` (the condition argument is unused in the source). -/
def start_split (d : Decoder) (on_true on_false : CodeBlock) (addr : Felt)
    (_condition : Felt) : Decoder :=
  let (parent_addr, stack) := d.block_stack.push addr
  ⟨stack, d.trace.append_row parent_addr .Split on_true.hash on_false.hash⟩

/-- `Decoder::end_split`. -/
def end_split (d : Decoder) (block_hash : Word) : Decoder :=
  let (info, stack) := d.block_stack.pop
  ⟨stack, d.trace.append_row info.addr .End block_hash (fun _ => 0)⟩

/-- `Decoder::start_loop` from `decoder/mod.rs` lines 156–158: the body is
`// TODO: implement` — the decoder is left unchanged. -/
def start_loop (d : Decoder) (_body : CodeBlock) (_condition : Felt) : Decoder := d

/-- `Decoder::repeat` from `decoder/mod.rs` lines 160–162 (`repeat` is a Lean
keyword, hence the name `loop_repeat`): the body is `// TODO: implement` — the
decoder is left unchanged. -/
def loop_repeat (d : Decoder) (_body : CodeBlock) : Decoder := d

/-- `Decoder::end_loop` from `decoder/mod.rs` lines 164–166: the body is
`// TODO: implement` — the decoder is left unchanged. -/
def end_loop (d : Decoder) (_body : CodeBlock) : Decoder := d

/-- `Decoder::start_span`: push the span address, then append the span-start
row with the first batch's groups and the total group count. -/
def start_span (d : Decoder) (op_batches : List OpBatch) (addr : Felt) : Decoder :=
  let (parent_addr, stack) := d.block_stack.push addr
  let first_op_batch := (op_batches.headD ⟨[], [], fun _ => 0, 0⟩).groups
  ⟨stack, d.trace.append_span_start parent_addr first_op_batch (get_group_count op_batches)⟩

/-- `Decoder::respan`. -/
def respan (d : Decoder) (op_batch : OpBatch) : Decoder :=
  ⟨d.block_stack, d.trace.append_respan op_batch.groups⟩

/-- `Decoder::execute_user_op`.  The two decoder files in the repository are
from different commits (`decoder/mod.rs` forwards `(op, num_groups_left,
group_ops_left)` while `decoder/trace.rs` expects `(span_addr, op)`); we
bridge them by passing the current span address from the block stack, which is
what the trace row's address column calls for and does not affect any other
column. -/
def execute_user_op (d : Decoder) (op : Operation) : Decoder :=
  ⟨d.block_stack, d.trace.append_user_op d.block_stack.peek_addr op⟩

/-- `Decoder::end_span`. -/
def end_span (d : Decoder) (block_hash : Word) : Decoder :=
  let (_info, stack) := d.block_stack.pop
  ⟨stack, d.trace.append_span_end block_hash 0⟩

end Decoder

/-! ### Process state and primitive operations (`processor/src/lib.rs`;
`processor/src/operations`, `stack`, `memory`, `advice` and `hasher` are not
under `src/` and are modelled from the spec) -/

/-- `ExecutionError` from `processor/src/errors.rs` (not under `src/`;
variants modelled from the spec's error taxonomy).  `OutOfFuel` is a model
artifact marking exhaustion of the interpreter's recursion budget and
corresponds to no source error; `UnreachablePanic` models the `unreachable!`
panic in the loop executor. -/
inductive ExecutionError where
  | NotBinaryValue (v : Felt)
  | UnexecutableCodeBlock
  | AdviceTapeEmpty
  | UnreachablePanic
  | OutOfFuel
  deriving DecidableEq

/-- `ProgramInputs` (modelled from the spec; the Merkle advice sets are opaque
and unused by the embedded operations). -/
structure ProgramInputs where
  stack_init : List Felt
  advice_tape : List Felt

/-- `Process` from `processor/src/lib.rs`.  The stack is the operand stack
(top first; reads below the fill return `ZERO` per the spec), `advice` the
remaining advice tape, `memory` an association list from addresses to words,
`clk` the system clock, and `hasher_rows` the number of rows accumulated by
the hasher, from which fresh block addresses are derived (modelled from the
spec: the hasher is deterministic and yields a distinct address per call).
`events` is ghost instrumentation recording, in order, every code block on
which `execute_code_block` is entered; no source behavior depends on it. -/
structure Process where
  stack : List Felt
  advice : List Felt
  memory : List (Felt × Word)
  clk : Nat
  hasher_rows : Nat
  decoder : Decoder
  events : List CodeBlock

namespace Process

/-- Process creation from inputs (`Process::new`): the stack is initialized
from `stack_init` (top of stack first), the advice tape from `advice_tape`. -/
def init (inputs : ProgramInputs) : Process :=
  { stack := inputs.stack_init, advice := inputs.advice_tape, memory := [],
    clk := 0, hasher_rows := 0, decoder := Decoder.new, events := [] }

/-- `Stack::peek` (modelled from the spec: reads below the fill are `ZERO`). -/
def peek (st : Process) : Felt := st.stack.headD 0

/-- Stack element at depth `i` (modelled from the spec). -/
def stackAt (st : Process) (i : Nat) : Felt := st.stack.getD i 0

/-- `hasher.hash(state)` (modelled from the spec): returns a fresh address and
advances the hasher; every permutation occupies 8 rows, and the address is the
row at which the permutation starts. -/
def run_hash (st : Process) : Felt × Process :=
  ((st.hasher_rows + 1 : Nat), { st with hasher_rows := st.hasher_rows + 8 })

/-- Memory read (modelled from the spec: absent addresses read as zeros). -/
def mem_read (st : Process) (addr : Felt) : Word :=
  ((st.memory.find? (fun e => e.1 = addr)).map (·.2)).getD (fun _ => 0)

/-- `execute_op` (the `processor/src/operations` module is not under `src/`;
modelled from the spec's §4.4 interfaces and §4.1 lowering semantics).  Every
operation advances the clock by one; control-flow operations and decorators
have no stack effect. -/
def execute_op (st : Process) (op : Operation) : Process × Option ExecutionError :=
  let st := { st with clk := st.clk + 1 }
  match op with
  | .Noop => (st, none)
  | .Pad => ({ st with stack := 0 :: st.stack }, none)
  | .Incr => ({ st with stack := (st.peek + 1) :: st.stack.tail }, none)
  | .Drop => ({ st with stack := st.stack.tail }, none)
  | .MovUp4 =>
      ({ st with stack :=
          st.stackAt 4 :: st.stackAt 0 :: st.stackAt 1 :: st.stackAt 2 :: st.stackAt 3
            :: st.stack.drop 5 }, none)
  | .Push a => ({ st with stack := a :: st.stack }, none)
  | .Read =>
      match st.advice with
      | [] => (st, some .AdviceTapeEmpty)
      | v :: rest => ({ st with stack := v :: st.stack, advice := rest }, none)
  | .ReadW =>
      match st.advice with
      | a :: b :: c :: d :: rest =>
          ({ st with stack := d :: c :: b :: a :: st.stack.drop 4, advice := rest }, none)
      | _ => (st, some .AdviceTapeEmpty)
  | .LoadW =>
      let addr := st.peek
      let w := st.mem_read addr
      ({ st with stack := w 0 :: w 1 :: w 2 :: w 3 :: (st.stack.tail.drop 4) }, none)
  | .StoreW =>
      let addr := st.peek
      let rest := st.stack.tail
      let w : Word := fun i => rest.getD i.val 0
      ({ st with stack := rest, memory := (addr, w) :: st.memory }, none)
  | .SDepth => ({ st with stack := ((max st.stack.length 16 : Nat) : Felt) :: st.stack }, none)
  | _ => (st, none)

/-- Apply a decoder-to-decoder map to the process. -/
def onDecoder (st : Process) (f : Decoder → Decoder) : Process :=
  { st with decoder := f st.decoder }

/-- `Process::start_join_block` from `decoder/mod.rs` lines 16–24. -/
def start_join_block (st : Process) (first second : CodeBlock) :
    Process × Option ExecutionError :=
  let (st, e) := st.execute_op .Noop
  match e with
  | some err => (st, some err)
  | none =>
      let (addr, st) := st.run_hash
      (st.onDecoder (fun d => d.start_join first second addr), none)

/-- `Process::end_join_block` from `decoder/mod.rs` lines 26–32. -/
def end_join_block (st : Process) (block_hash : Word) : Process × Option ExecutionError :=
  let (st, e) := st.execute_op .Noop
  match e with
  | some err => (st, some err)
  | none => (st.onDecoder (fun d => d.end_join block_hash), none)

/-- `Process::start_split_block` from `decoder/mod.rs` lines 37–46: peek the
condition, drop it, obtain a fresh address, and record the split start. -/
def start_split_block (st : Process) (on_true on_false : CodeBlock) :
    Process × Option ExecutionError :=
  let condition := st.peek
  let (st, e) := st.execute_op .Drop
  match e with
  | some err => (st, some err)
  | none =>
      let (addr, st) := st.run_hash
      (st.onDecoder (fun d => d.start_split on_true on_false addr condition), none)

/-- `Process::end_split_block` from `decoder/mod.rs` lines 48–54. -/
def end_split_block (st : Process) (block_hash : Word) : Process × Option ExecutionError :=
  let (st, e) := st.execute_op .Noop
  match e with
  | some err => (st, some err)
  | none => (st.onDecoder (fun d => d.end_split block_hash), none)

/-- `Process::start_span_block` from `decoder/mod.rs` lines 59–82. -/
def start_span_block (st : Process) (op_batches : List OpBatch) :
    Process × Option ExecutionError :=
  let (st, e) := st.execute_op .Noop
  match e with
  | some err => (st, some err)
  | none =>
      let (addr, st) := st.run_hash
      (st.onDecoder (fun d => d.start_span op_batches addr), none)

/-- `Process::end_span_block` from `decoder/mod.rs` lines 84–90. -/
def end_span_block (st : Process) (block_hash : Word) : Process × Option ExecutionError :=
  let (st, e) := st.execute_op .Noop
  match e with
  | some err => (st, some err)
  | none => (st.onDecoder (fun d => d.end_span block_hash), none)

/-- Decode and execute one user operation (`decoder.execute_user_op(op)`
followed by `execute_op(op)?` in `Process::execute_op_batch`). -/
def user_op_step (st : Process) (op : Operation) : Process × Option ExecutionError :=
  (st.onDecoder (fun d => d.execute_user_op op)).execute_op op

end Process

/-- The loop indices of `Process::execute_op_batch`: `op_idx`, `group_idx`
and `next_group_idx`. -/
structure BatchCtx where
  op_idx : Nat
  group_idx : Nat
  next_group_idx : Nat
  deriving DecidableEq

namespace Process

/-- The main operation loop of `Process::execute_op_batch` from
`processor/src/lib.rs` lines 249–288, threading the three loop indices; an
error from `execute_op` aborts the remaining iterations (the `?` operator).
The `op_counts[group_idx]` index and the `usize` subtraction follow Rust
semantics on the executions below (in-bounds, non-zero count). -/
def exec_batch_ops (ops : List Operation) (op_counts : List Nat) (st : Process)
    (ctx : BatchCtx) : Process × BatchCtx × Option ExecutionError :=
  match ops with
  | [] => (st, ctx, none)
  | op :: rest =>
    if op.is_decorator then
      let (st, e) := st.execute_op op
      match e with
      | some err => (st, ctx, some err)
      | none => exec_batch_ops rest op_counts st ctx
    else
      let (st, e) := st.user_op_step op
      match e with
      | some err => (st, ctx, some err)
      | none =>
        let has_imm := (op.imm_value).isSome
        let ctx :=
          if has_imm then { ctx with next_group_idx := ctx.next_group_idx + 1 } else ctx
        if ctx.op_idx = op_counts.getD ctx.group_idx 0 - 1 then
          let ctx : BatchCtx :=
            { op_idx := 0, group_idx := ctx.next_group_idx,
              next_group_idx := ctx.next_group_idx + 1 }
          if has_imm then
            let (st, e) := st.user_op_step .Noop
            match e with
            | some err => (st, ctx, some err)
            | none => exec_batch_ops rest op_counts st ctx
          else exec_batch_ops rest op_counts st ctx
        else exec_batch_ops rest op_counts st { ctx with op_idx := ctx.op_idx + 1 }

/-- The padding loop of `Process::execute_op_batch` (`processor/src/lib.rs`
lines 292–295): execute `k` NOOPs, each decoded by the decoder. -/
def exec_pad_noops (k : Nat) (st : Process) : Process × Option ExecutionError :=
  match k with
  | 0 => (st, none)
  | k + 1 =>
    let (st, e) := st.user_op_step .Noop
    match e with
    | some err => (st, some err)
    | none => exec_pad_noops k st

/-- `Process::execute_op_batch` from `processor/src/lib.rs` lines 243–298:
run the operations, then pad with one NOOP per group index from `group_idx`
up to `batch.num_groups().next_power_of_two()`. -/
def execute_op_batch (st : Process) (batch : OpBatch) : Process × Option ExecutionError :=
  match exec_batch_ops batch.ops batch.op_counts st ⟨0, 0, 1⟩ with
  | (st, _, some err) => (st, some err)
  | (st, ctx, none) => exec_pad_noops (nextPow2 batch.num_groups - ctx.group_idx) st

/-- The per-batch loop of `Process::execute_span_block` (lines 227–231): each
batch after the first is preceded by a RESPAN and a NOOP. -/
def exec_batches_rest (batches : List OpBatch) (st : Process) :
    Process × Option ExecutionError :=
  match batches with
  | [] => (st, none)
  | b :: rest =>
    let st := st.onDecoder (fun d => d.respan b)
    let (st, e) := st.execute_op .Noop
    match e with
    | some err => (st, some err)
    | none =>
      match st.execute_op_batch b with
      | (st, some err) => (st, some err)
      | (st, none) => exec_batches_rest rest st

end Process

/-! ### The block executor (`processor/src/lib.rs`, `execute_code_block`) -/

mutual

/-- `Process::execute_code_block` from `processor/src/lib.rs` lines 126–234,
together with the `execute_join_block`, `execute_split_block`,
`execute_loop_block` and `execute_span_block` bodies it dispatches to.  The
Rust recursion is embedded with an explicit fuel argument, decremented at
every recursive call and at every loop iteration; exhaustion yields the model
error `OutOfFuel`.  On entry the block is recorded in the ghost `events`
field. -/
def execute_code_block : Nat → CodeBlock → Process → Process × Option ExecutionError
  | 0, _, st => (st, some .OutOfFuel)
  | n + 1, b, st₀ =>
    let st := { st₀ with events := st₀.events ++ [b] }
    match b with
    | .join first second h =>
      let (st, e) := st.start_join_block first second
      match e with
      | some err => (st, some err)
      | none =>
        match execute_code_block n first st with
        | (st, some err) => (st, some err)
        | (st, none) =>
          match execute_code_block n second st with
          | (st, some err) => (st, some err)
          | (st, none) => st.end_join_block h
    | .split on_true on_false h =>
      let condition := st.peek
      let (st, e) := st.start_split_block on_true on_false
      match e with
      | some err => (st, some err)
      | none =>
        if condition = 1 then
          match execute_code_block n on_true st with
          | (st, some err) => (st, some err)
          | (st, none) => st.end_split_block h
        else if condition = 0 then
          match execute_code_block n on_false st with
          | (st, some err) => (st, some err)
          | (st, none) => st.end_split_block h
        else (st, some (.NotBinaryValue condition))
    | .loop body _h =>
      let condition := st.peek
      let st := st.onDecoder (fun d => d.start_loop body condition)
      let iterated : Process × Option ExecutionError :=
        if condition = 1 then
          let (st, e) := st.execute_op .Drop
          match e with
          | some err => (st, some err)
          | none =>
            match execute_code_block n body st with
            | (st, some err) => (st, some err)
            | (st, none) => execute_loop_while n body st
        else if condition = 0 then st.execute_op .Noop
        else (st, some (.NotBinaryValue condition))
      match iterated with
      | (st, some err) => (st, some err)
      | (st, none) =>
        if st.peek = 0 then
          let (st, e) := st.execute_op .Drop
          match e with
          | some err => (st, some err)
          | none => (st.onDecoder (fun d => d.end_loop body), none)
        else if condition = 1 then (st, some .UnreachablePanic)
        else (st, some (.NotBinaryValue st.peek))
    | .span batches h =>
      let (st, e) := st.start_span_block batches
      match e with
      | some err => (st, some err)
      | none =>
        match st.execute_op_batch (batches.headD ⟨[], [], fun _ => 0, 0⟩) with
        | (st, some err) => (st, some err)
        | (st, none) =>
          match Process.exec_batches_rest batches.tail st with
          | (st, some err) => (st, some err)
          | (st, none) => st.end_span_block h
    | .proxy _ => (st, some .UnexecutableCodeBlock)

/-- The `while self.stack.peek() == Felt::ONE` loop of
`Process::execute_loop_block` (`processor/src/lib.rs` lines 190–195), with
fuel consumed per iteration. -/
def execute_loop_while : Nat → CodeBlock → Process → Process × Option ExecutionError
  | 0, _, st => (st, some .OutOfFuel)
  | n + 1, body, st =>
    if st.peek = 1 then
      let (st, e) := st.execute_op .Drop
      match e with
      | some err => (st, some err)
      | none =>
        let st := st.onDecoder (fun d => d.loop_repeat body)
        match execute_code_block n body st with
        | (st, some err) => (st, some err)
        | (st, none) => execute_loop_while n body st
    else (st, none)

end

/-- A script: the root code block and the program hash. -/
structure Script where
  root : CodeBlock
  script_hash : Word

/-- `MIN_TRACE_LEN` (modelled from the spec; the constant lives in `vm_core`,
not under `src/`). -/
def MIN_TRACE_LEN : Nat := 1024

/-- Trace finalization (`ExecutionTrace::new`; `processor/src/trace.rs` is
not under `src/`).  Modelled from the spec §6: all columns are padded to a
common length that is a multiple of `MIN_TRACE_LEN` and at least the number
of executed rows. -/
def finalize_trace (st : Process) : List (List Felt) :=
  st.decoder.trace.into_vec (max MIN_TRACE_LEN (nextPow2 (st.clk + 1))) 0

/-- `execute` from `processor/src/lib.rs` lines 66–71: run the script's root
block on a fresh process built from the inputs; return the finalized trace
together with the program hash, or the execution error. -/
def execute (fuel : Nat) (script : Script) (inputs : ProgramInputs) :
    Except ExecutionError (List (List Felt) × Word) :=
  match execute_code_block fuel script.root (Process.init inputs) with
  | (st, none) => .ok (finalize_trace st, script.script_hash)
  | (_, some err) => .error err

/-! ### Assembler parsers (`assembly/src/parsers/io_ops.rs`; `Token`,
`validate_op_len`, `parse_int_param` and `parse_element_param` live in
`assembly/src/parsers/mod.rs`, which is not under `src/`, and are modelled
from the spec) -/

/-- A token: the dot-separated parts of an instruction literal and its
position (modelled from the spec's data model; `num_parts()` is the length of
`parts`). -/
structure Token where
  parts : List String
  pos : Nat
  deriving DecidableEq

/-- `Token::num_parts`. -/
def Token.num_parts (t : Token) : Nat := t.parts.length

/-- `AssemblyError` (modelled from the spec's assembler error taxonomy; each
variant carries the offending token). -/
inductive AssemblyError where
  | invalid_op (tok : Token)
  | unexpected_token (tok : Token) (expected : String)
  | invalid_param (tok : Token) (idx : Nat)
  | invalid_param_with_reason (tok : Token) (idx : Nat) (reason : String)
  | missing_param (tok : Token)
  | extra_param (tok : Token)
  | not_implemented (tok : Token)
  deriving DecidableEq

/-- Modelled from the spec: `validate_op_len(op, required_prefix_parts,
min_params, max_params)` checks segment counts and yields `InvalidOp`,
`MissingParam` or `ExtraParam` (behavior pinned by the in-repo tests of
`io_ops.rs`: too few prefix segments give `InvalidOp`, a missing parameter
gives `MissingParam`, a surplus one gives `ExtraParam`). -/
def validate_op_len (op : Token) (num_op_parts min_param_count max_param_count : Nat) :
    Option AssemblyError :=
  if op.num_parts < num_op_parts then some (.invalid_op op)
  else if op.num_parts < num_op_parts + min_param_count then some (.missing_param op)
  else if op.num_parts > num_op_parts + max_param_count then some (.extra_param op)
  else none

/-- Decimal-literal parser: `some n` iff the string is a non-empty sequence
of decimal digits. -/
def parseDecNat (s : String) : Option Nat :=
  if s.length ≠ 0 ∧ s.data.all Char.isDigit then
    some (s.data.foldl (fun acc c => acc * 10 + (c.toNat - 48)) 0)
  else none

/-- Hex-literal parser: `some n` iff the string is `0x` followed by a
non-empty sequence of hex digits. -/
def parseHexNat (s : String) : Option Nat :=
  if s.take 2 = "0x" ∧ (s.drop 2).length ≠ 0 ∧ (s.drop 2).data.all (fun c => c.isDigit ∨ (97 ≤ c.toNat ∧ c.toNat ≤ 102)) then
    some ((s.drop 2).data.foldl
      (fun acc c => acc * 16 + (if c.isDigit then c.toNat - 48 else c.toNat - 87)) 0)
  else none

/-- Modelled from the spec: `parse_int_param(op, idx, lower_bound,
upper_bound)`.  Per §8 and the in-repo tests: a parameter that is not a plain
decimal value (a character, or a hex form) yields `InvalidParam(idx)`; a
decimal value outside `[lower_bound, upper_bound]` yields
`InvalidParamWithReason(idx, reason)` where the reason spells out the bounds. -/
def parse_int_param (op : Token) (idx lower_bound upper_bound : Nat) :
    Except AssemblyError Nat :=
  match parseDecNat (op.parts.getD idx "") with
  | none => .error (.invalid_param op idx)
  | some n =>
    if n < lower_bound ∨ n > upper_bound then
      .error (.invalid_param_with_reason op idx
        ("parameter value must be greater than or equal to " ++ toString lower_bound
          ++ " and less than or equal to " ++ toString upper_bound))
    else .ok n

/-- Modelled from the spec: a field-element literal is a decimal or `0x`-hex
numeral whose value converts losslessly, i.e. is below the field order. -/
def parseFieldLit (s : String) : Option Felt :=
  match parseDecNat s with
  | some n => if n < P then some (n : Felt) else none
  | none =>
    match parseHexNat s with
    | some n => if n < P then some (n : Felt) else none
    | none => none

/-- Modelled from the spec: `parse_element_param(op, idx)` parses the `idx`-th
segment as a field element, yielding `InvalidParam(idx)` on failure. -/
def parse_element_param (op : Token) (idx : Nat) : Except AssemblyError Felt :=
  match parseFieldLit (op.parts.getD idx "") with
  | some v => .ok v
  | none => .error (.invalid_param op idx)

/-- Modelled from the spec (§4.1): `push_value` emits `Pad` for `0`,
`Pad, Incr` for `1`, and `Push(value)` otherwise. -/
def push_value (span_ops : List Operation) (value : Felt) : List Operation :=
  if value = 0 then span_ops ++ [.Pad]
  else if value = 1 then span_ops ++ [.Pad, .Incr]
  else span_ops ++ [.Push value]

/-- `parse_push_adv` from `io_ops.rs` lines 281–298.  All parser functions
return the (possibly extended) op sink together with an optional error,
mirroring a `&mut Vec<Operation>` argument whose extensions persist across an
`Err` return. -/
def parse_push_adv (span_ops : List Operation) (op : Token) :
    List Operation × Option AssemblyError :=
  match validate_op_len op 2 1 1 with
  | some e => (span_ops, some e)
  | none =>
    if op.parts.getD 1 "" ≠ "adv" then (span_ops, some (.unexpected_token op "push.adv.n"))
    else
      match parse_int_param op 2 1 16 with
      | .error e => (span_ops, some e)
      | .ok n => (span_ops ++ List.replicate n .Read, none)

/-- `parse_push_env` from `io_ops.rs` lines 250–266. -/
def parse_push_env (span_ops : List Operation) (op : Token) :
    List Operation × Option AssemblyError :=
  match validate_op_len op 3 0 0 with
  | some e => (span_ops, some e)
  | none =>
    if op.parts.getD 1 "" ≠ "env" then (span_ops, some (.unexpected_token op "push.env.{var}"))
    else if op.parts.getD 2 "" = "sdepth" then (span_ops ++ [.SDepth], none)
    else (span_ops, some (.invalid_op op))

/-- `parse_push_constant` from `io_ops.rs` lines 222–234. -/
def parse_push_constant (span_ops : List Operation) (op : Token) :
    List Operation × Option AssemblyError :=
  match validate_op_len op 1 1 1 with
  | some e => (span_ops, some e)
  | none =>
    if op.parts.getD 0 "" ≠ "push" then (span_ops, some (.unexpected_token op "push.{param}"))
    else
      match parse_element_param op 1 with
      | .error e => (span_ops, some e)
      | .ok value => (push_value span_ops value, none)

/-- `parse_push` from `io_ops.rs` lines 27–43. -/
def parse_push (span_ops : List Operation) (op : Token) :
    List Operation × Option AssemblyError :=
  if op.num_parts < 2 then (span_ops, some (.invalid_op op))
  else if op.parts.getD 0 "" ≠ "push" then
    (span_ops, some (.unexpected_token op "push.{adv.n|env.var|a}"))
  else if op.parts.getD 1 "" = "adv" then parse_push_adv span_ops op
  else if op.parts.getD 1 "" = "env" then parse_push_env span_ops op
  else parse_push_constant span_ops op

/-- `push_mem_addr` from `io_ops.rs` lines 373–378. -/
def push_mem_addr (span_ops : List Operation) (op : Token) :
    List Operation × Option AssemblyError :=
  match parse_element_param op 2 with
  | .error e => (span_ops, some e)
  | .ok address => (span_ops ++ [.Push address], none)

/-- `parse_mem_read` from `io_ops.rs` lines 315–339: for `pushw`, four `Pad`s
are appended first, then either `MovUp4` (no address parameter) or
`Push(addr)`; an invalid address aborts with the four `Pad`s already in the
sink.  Finally `LoadW` is appended. -/
def parse_mem_read (span_ops : List Operation) (op : Token) :
    List Operation × Option AssemblyError :=
  let step :=
    if op.parts.getD 0 "" = "pushw" then
      let span_ops := span_ops ++ [.Pad, .Pad, .Pad, .Pad]
      if op.num_parts = 2 then (span_ops ++ [.MovUp4], none)
      else
        match parse_element_param op 2 with
        | .error e => (span_ops, some e)
        | .ok address => (span_ops ++ [.Push address], none)
    else if op.num_parts = 3 then push_mem_addr span_ops op
    else (span_ops, none)
  match step with
  | (span_ops, some e) => (span_ops, some e)
  | (span_ops, none) => (span_ops ++ [.LoadW], none)

/-- `parse_mem_write` from `io_ops.rs` lines 352–366. -/
def parse_mem_write (span_ops : List Operation) (op : Token) :
    List Operation × Option AssemblyError :=
  let step :=
    if op.num_parts = 3 then push_mem_addr span_ops op else (span_ops, none)
  match step with
  | (span_ops, some e) => (span_ops, some e)
  | (span_ops, none) =>
    let span_ops := span_ops ++ [.StoreW]
    if op.parts.getD 0 "" = "popw" then
      (span_ops ++ [.Drop, .Drop, .Drop, .Drop], none)
    else (span_ops, none)

/-- `parse_local_read` from `io_ops.rs` lines 382–384: `unimplemented!()`,
modelled as a dedicated error. -/
def parse_local_read (span_ops : List Operation) (op : Token) :
    List Operation × Option AssemblyError :=
  (span_ops, some (.not_implemented op))

/-- `parse_local_write` from `io_ops.rs` lines 386–388: `unimplemented!()`,
modelled as a dedicated error. -/
def parse_local_write (span_ops : List Operation) (op : Token) :
    List Operation × Option AssemblyError :=
  (span_ops, some (.not_implemented op))

/-- `parse_pushw` from `io_ops.rs` lines 61–76. -/
def parse_pushw (span_ops : List Operation) (op : Token) :
    List Operation × Option AssemblyError :=
  match validate_op_len op 2 0 1 with
  | some e => (span_ops, some e)
  | none =>
    if op.parts.getD 0 "" ≠ "pushw" then
      (span_ops, some (.unexpected_token op "pushw.{mem|mem.a|local.i}"))
    else if op.parts.getD 1 "" = "mem" then parse_mem_read span_ops op
    else if op.parts.getD 1 "" = "local" then parse_local_read span_ops op
    else (span_ops, some (.invalid_op op))

/-- `parse_popw` from `io_ops.rs` lines 98–113. -/
def parse_popw (span_ops : List Operation) (op : Token) :
    List Operation × Option AssemblyError :=
  match validate_op_len op 2 0 1 with
  | some e => (span_ops, some e)
  | none =>
    if op.parts.getD 0 "" ≠ "popw" then
      (span_ops, some (.unexpected_token op "popw.{mem|mem.a|local.i}"))
    else if op.parts.getD 1 "" = "mem" then parse_mem_write span_ops op
    else if op.parts.getD 1 "" = "local" then parse_local_write span_ops op
    else (span_ops, some (.invalid_op op))

/-- The exact reason string produced for an out-of-bounds `push.adv` count. -/
def advice_bound_reason : String :=
  "parameter value must be greater than or equal to 1 and less than or equal to 16"

/-- An op batch with exactly 3 op-groups: three groups, each packing the
single operation `Incr` (opcode 2), the remaining group slots zero. -/
def three_group_batch : OpBatch :=
  { ops := [.Incr, .Incr, .Incr], op_counts := [1, 1, 1],
    groups := fun i => if i.val < 3 then (2 : Felt) else 0, num_groups := 3 }

/-- A span block holding just `three_group_batch`. -/
def three_group_span : CodeBlock := .span [three_group_batch] (fun _ => 0)

/-- Empty program inputs. -/
def empty_inputs : ProgramInputs := ⟨[], []⟩

/-- The process state right after `start_span_block` on the three-group span. -/
def span_start_state : Process :=
  ((Process.init empty_inputs).start_span_block [three_group_batch]).1

/-! ## Helper lemmas -/

theorem fillResize_length (l : List Felt) (n : Nat) (v : Felt) :
    (DecoderTrace.fillResize l n v).length = n := by
  simp only [DecoderTrace.fillResize, List.length_append, List.length_take, List.length_replicate]
  omega

theorem fillResize_getD_of_ge (l : List Felt) (n : Nat) (v d : Felt) (j : Nat)
    (hj : l.length ≤ j) (hn : j < n) : (DecoderTrace.fillResize l n v).getD j d = v := by
  have htake : l.take n = l := List.take_of_length_le (by omega)
  have hlt : j - l.length < n - l.length := by omega
  rw [DecoderTrace.fillResize, htake, List.getD_append_right _ _ _ _ hj,
    List.getD_eq_getElem _ _ (by simpa using hlt), List.getElem_replicate]

theorem append_user_op_addr (t : DecoderTrace) (addr : Felt) (op : Operation) :
    (t.append_user_op addr op).addr_trace = t.addr_trace ++ [addr] := by
  simp only [DecoderTrace.append_user_op, DecoderTrace.append_opcode]
  split_ifs <;> rfl

theorem append_user_op_op_bits (t : DecoderTrace) (addr : Felt) (op : Operation) (i : Fin 7) :
    (t.append_user_op addr op).op_bits_trace i =
      t.op_bits_trace i ++ [(((op.op_codeD >>> i.val) &&& 1 : Nat) : Felt)] := by
  simp only [DecoderTrace.append_user_op, DecoderTrace.append_opcode]
  split_ifs <;> rfl

theorem append_user_op_in_span (t : DecoderTrace) (addr : Felt) (op : Operation) :
    (t.append_user_op addr op).in_span_trace = t.in_span_trace ++ [1] := by
  simp only [DecoderTrace.append_user_op, DecoderTrace.append_opcode]
  split_ifs <;> rfl

theorem execute_op_decoder (st : Process) (op : Operation) :
    ((st.execute_op op).1).decoder = st.decoder := by
  cases op <;> try rfl
  · dsimp only [Process.execute_op]
    rcases h : st.advice with _ | ⟨v, rest⟩ <;> rfl
  · dsimp only [Process.execute_op]
    rcases h : st.advice with _ | ⟨a, _ | ⟨b, _ | ⟨c, _ | ⟨d, rest⟩⟩⟩⟩ <;> rfl

theorem execute_op_events (st : Process) (op : Operation) :
    ((st.execute_op op).1).events = st.events := by
  cases op <;> try rfl
  · dsimp only [Process.execute_op]
    rcases h : st.advice with _ | ⟨v, rest⟩ <;> rfl
  · dsimp only [Process.execute_op]
    rcases h : st.advice with _ | ⟨a, _ | ⟨b, _ | ⟨c, _ | ⟨d, rest⟩⟩⟩⟩ <;> rfl

theorem user_op_step_err (st : Process) : (st.user_op_step .Noop).2 = none := rfl

theorem user_op_step_decoder (st : Process) (op : Operation) :
    ((st.user_op_step op).1).decoder = st.decoder.execute_user_op op := by
  simp [Process.user_op_step, execute_op_decoder, Process.onDecoder]

/-- Each NOOP executed by the padding loop of `execute_op_batch` appends
exactly one decoder row whose op bits are the (all-zero) bits of `Noop` and
whose in-span flag is `1`; the loop never fails. -/
theorem exec_pad_noops_spec (k : Nat) (st : Process) :
    (Process.exec_pad_noops k st).2 = none ∧
    ((Process.exec_pad_noops k st).1).decoder.trace.addr_trace.length =
      st.decoder.trace.addr_trace.length + k ∧
    (∀ i : Fin 7, ((Process.exec_pad_noops k st).1).decoder.trace.op_bits_trace i =
      st.decoder.trace.op_bits_trace i ++ List.replicate k 0) ∧
    ((Process.exec_pad_noops k st).1).decoder.trace.in_span_trace =
      st.decoder.trace.in_span_trace ++ List.replicate k 1 := by
  induction k generalizing st with
  | zero => simp [Process.exec_pad_noops]
  | succ k ih =>
    have hstep : (st.user_op_step .Noop).2 = none := rfl
    have hdec := user_op_step_decoder st .Noop
    obtain ⟨ih1, ih2, ih3, ih4⟩ := ih ((st.user_op_step .Noop).1)
    have hrun : Process.exec_pad_noops (k + 1) st =
        Process.exec_pad_noops k ((st.user_op_step .Noop).1) := by
      simp only [Process.exec_pad_noops]
      rcases hu : st.user_op_step .Noop with ⟨st', e⟩
      have : e = none := by rw [← hstep, hu]
      subst this
      rfl
    refine ⟨by rw [hrun]; exact ih1, ?_, ?_, ?_⟩
    · rw [hrun, ih2, hdec]
      have : ((st.decoder.execute_user_op Operation.Noop).trace).addr_trace.length =
          st.decoder.trace.addr_trace.length + 1 := by
        simp [Decoder.execute_user_op, append_user_op_addr]
      omega
    · intro i
      rw [hrun, ih3 i, hdec]
      have : ((st.decoder.execute_user_op Operation.Noop).trace).op_bits_trace i =
          st.decoder.trace.op_bits_trace i ++ [0] := by
        simpa [Decoder.execute_user_op, Operation.op_codeD, Operation.op_code] using
          append_user_op_op_bits st.decoder.trace st.decoder.block_stack.peek_addr .Noop i
      rw [this, List.append_assoc]
      congr 1
    · rw [hrun, ih4, hdec]
      have : ((st.decoder.execute_user_op Operation.Noop).trace).in_span_trace =
          st.decoder.trace.in_span_trace ++ [1] := by
        simp [Decoder.execute_user_op, append_user_op_in_span]
      rw [this, List.append_assoc]
      congr 1

theorem user_op_step_events (st : Process) (op : Operation) :
    ((st.user_op_step op).1).events = st.events := by
  simpa [Process.user_op_step, Process.onDecoder] using
    execute_op_events (st.onDecoder (fun d => d.execute_user_op op)) op

theorem start_join_block_events (st : Process) (f s : CodeBlock) :
    ((st.start_join_block f s).1).events = st.events := rfl

theorem end_join_block_events (st : Process) (h : Word) :
    ((st.end_join_block h).1).events = st.events := rfl

theorem start_split_block_events (st : Process) (t f : CodeBlock) :
    ((st.start_split_block t f).1).events = st.events := rfl

theorem end_split_block_events (st : Process) (h : Word) :
    ((st.end_split_block h).1).events = st.events := rfl

theorem start_span_block_events (st : Process) (bs : List OpBatch) :
    ((st.start_span_block bs).1).events = st.events := rfl

theorem end_span_block_events (st : Process) (h : Word) :
    ((st.end_span_block h).1).events = st.events := rfl

theorem exec_batch_ops_events (ops : List Operation) (counts : List Nat) (st : Process)
    (ctx : BatchCtx) : ((Process.exec_batch_ops ops counts st ctx).1).events = st.events := by
  induction ops generalizing st ctx with
  | nil => rfl
  | cons op rest ih =>
    simp only [Process.exec_batch_ops]
    split
    · rcases h : st.execute_op op with ⟨st', e⟩
      have hev : st'.events = st.events := by
        have hx := execute_op_events st op
        rw [h] at hx
        exact hx
      cases e
      · exact (ih st' ctx).trans hev
      · exact hev
    · rcases h : st.user_op_step op with ⟨st', e⟩
      have hev : st'.events = st.events := by
        have hx := user_op_step_events st op
        rw [h] at hx
        exact hx
      cases e with
      | some err => exact hev
      | none =>
        have key : ∀ (st₀ : Process) (ctx₀ : BatchCtx), st₀.events = st.events →
            (Process.exec_batch_ops rest counts st₀ ctx₀).1.events = st.events :=
          fun st₀ ctx₀ h₀ => (ih st₀ ctx₀).trans h₀
        show (if _ then _ else _ : Process × BatchCtx × Option ExecutionError).1.events = _
        split
        · split
          · rcases h2 : st'.user_op_step .Noop with ⟨st'', e2⟩
            have hev2 : st''.events = st'.events := by
              have hx := user_op_step_events st' .Noop
              rw [h2] at hx
              exact hx
            cases e2
            · exact key _ _ (hev2.trans hev)
            · exact hev2.trans hev
          · exact key _ _ hev
        · split <;> exact key _ _ hev

theorem exec_pad_noops_events (k : Nat) (st : Process) :
    ((Process.exec_pad_noops k st).1).events = st.events := by
  induction k generalizing st with
  | zero => rfl
  | succ k ih =>
    simp only [Process.exec_pad_noops]
    rcases h : st.user_op_step .Noop with ⟨st', e⟩
    have hev : st'.events = st.events := by
      have := user_op_step_events st .Noop
      rw [h] at this
      exact this
    cases e
    · simpa [ih] using hev
    · simpa using hev

theorem execute_op_batch_events (st : Process) (batch : OpBatch) :
    ((st.execute_op_batch batch).1).events = st.events := by
  simp only [Process.execute_op_batch]
  rcases h : Process.exec_batch_ops batch.ops batch.op_counts st ⟨0, 0, 1⟩ with ⟨st1, ctx, e⟩
  have hev : st1.events = st.events := by
    have := exec_batch_ops_events batch.ops batch.op_counts st ⟨0, 0, 1⟩
    rw [h] at this
    exact this
  cases e
  · simpa [exec_pad_noops_events] using hev
  · simpa using hev

theorem exec_batches_rest_events (bs : List OpBatch) (st : Process) :
    ((Process.exec_batches_rest bs st).1).events = st.events := by
  induction bs generalizing st with
  | nil => rfl
  | cons b rest ih =>
    simp only [Process.exec_batches_rest]
    rcases h : (st.onDecoder (fun d => d.respan b)).execute_op .Noop with ⟨st', e⟩
    have hev : st'.events = st.events := by
      have := execute_op_events (st.onDecoder (fun d => d.respan b)) .Noop
      rw [h] at this
      exact this
    cases e
    · rcases h2 : st'.execute_op_batch b with ⟨st'', e2⟩
      have hev2 : st''.events = st'.events := by
        have := execute_op_batch_events st' b
        rw [h2] at this
        exact this
      cases e2
      · simpa [ih] using hev2.trans hev
      · simpa using hev2.trans hev
    · simpa using hev

/-- Error-propagating continuation step (`?` operator): if the continuation
only ever extends the ghost event log, so does the whole step. -/
theorem match_step_events (X : Process × Option ExecutionError)
    (k : Process → Process × Option ExecutionError)
    (hk : ∀ st, ∃ tl, (k st).1.events = st.events ++ tl) :
    ∃ tl, (match X with
           | (st, some err) => (st, some err)
           | (st, none) => k st).1.events = X.1.events ++ tl := by
  rcases X with ⟨st, e⟩
  cases e
  · exact hk st
  · exact ⟨[], by simp⟩

/-- Fuel-indexed weak event monotonicity: the interpreter only ever appends to
the ghost event log. -/
theorem exec_events_extend : ∀ n : Nat,
    (∀ b st, ∃ tl, (execute_code_block n b st).1.events = st.events ++ tl ∧
      (1 ≤ n → tl.head? = some b)) ∧
    (∀ body st, ∃ tl, (execute_loop_while n body st).1.events = st.events ++ tl) := by
  intro n
  induction n with
  | zero =>
    exact ⟨fun b st => ⟨[], by simp [execute_code_block], fun h => absurd h (by omega)⟩,
      fun body st => ⟨[], by simp [execute_loop_while]⟩⟩
  | succ n ih =>
    obtain ⟨ihE0, ihW⟩ := ih
    have ihE : ∀ b st, ∃ tl, (execute_code_block n b st).1.events = st.events ++ tl := by
      intro b st
      obtain ⟨tl, htl, _⟩ := ihE0 b st
      exact ⟨tl, htl⟩
    have hstep : ∀ (b : CodeBlock) (st : Process),
        ∃ tl, (execute_code_block (n + 1) b st).1.events = (st.events ++ [b]) ++ tl := by
      intro b st
      cases b with
      | join f s hsh =>
        simp only [execute_code_block]
        have h_end : ∀ st' : Process, ∃ tl, ((st'.end_join_block hsh)).1.events =
            st'.events ++ tl := fun st' => ⟨[], by simp [end_join_block_events st' hsh]⟩
        have h_snd : ∀ st' : Process, ∃ tl,
            ((match execute_code_block n s st' with
              | (st, some err) => (st, some err)
              | (st, none) => st.end_join_block hsh) :
                Process × Option ExecutionError).1.events = st'.events ++ tl := by
          intro st'
          obtain ⟨tl2, h2⟩ := match_step_events (execute_code_block n s st') _ h_end
          obtain ⟨tl1, h1⟩ := ihE s st'
          exact ⟨tl1 ++ tl2, by rw [h2, h1, List.append_assoc]⟩
        have h_fst : ∀ st' : Process, ∃ tl,
            ((match execute_code_block n f st' with
              | (st, some err) => (st, some err)
              | (st, none) =>
                  match execute_code_block n s st with
                  | (st, some err) => (st, some err)
                  | (st, none) => st.end_join_block hsh) :
                Process × Option ExecutionError).1.events = st'.events ++ tl := by
          intro st'
          obtain ⟨tl2, h2⟩ := match_step_events (execute_code_block n f st') _ h_snd
          obtain ⟨tl1, h1⟩ := ihE f st'
          exact ⟨tl1 ++ tl2, by rw [h2, h1, List.append_assoc]⟩
        obtain ⟨tl, hx⟩ := match_step_events
          (Process.start_join_block { st with events := st.events ++ [CodeBlock.join f s hsh] }
            f s) _ h_fst
        exact ⟨tl, hx⟩
      | split t f hsh =>
        simp only [execute_code_block]
        have h_end : ∀ st' : Process, ∃ tl, ((st'.end_split_block hsh)).1.events =
            st'.events ++ tl := fun st' => ⟨[], by simp [end_split_block_events st' hsh]⟩
        have h_k : ∀ (c : Felt) (st' : Process), ∃ tl,
            ((if c = 1 then
                match execute_code_block n t st' with
                | (st, some err) => (st, some err)
                | (st, none) => st.end_split_block hsh
              else if c = 0 then
                match execute_code_block n f st' with
                | (st, some err) => (st, some err)
                | (st, none) => st.end_split_block hsh
              else (st', some (.NotBinaryValue c))) :
                Process × Option ExecutionError).1.events = st'.events ++ tl := by
          intro c st'
          split_ifs
          · obtain ⟨tl2, h2⟩ := match_step_events (execute_code_block n t st') _ h_end
            obtain ⟨tl1, h1⟩ := ihE t st'
            exact ⟨tl1 ++ tl2, by rw [h2, h1, List.append_assoc]⟩
          · obtain ⟨tl2, h2⟩ := match_step_events (execute_code_block n f st') _ h_end
            obtain ⟨tl1, h1⟩ := ihE f st'
            exact ⟨tl1 ++ tl2, by rw [h2, h1, List.append_assoc]⟩
          · exact ⟨[], by simp⟩
        obtain ⟨tl, hx⟩ := match_step_events
          (Process.start_split_block { st with events := st.events ++ [CodeBlock.split t f hsh] }
            t f) _
          (h_k (Process.peek { st with events := st.events ++ [CodeBlock.split t f hsh] }))
        exact ⟨tl, hx⟩
      | loop body hsh =>
        simp only [execute_code_block]
        have h_iter : ∀ (c : Felt) (st' : Process), ∃ tl,
            ((if c = 1 then
                match execute_code_block n body (st'.execute_op .Drop).1 with
                | (st, some err) => (st, some err)
                | (st, none) => execute_loop_while n body st
              else if c = 0 then st'.execute_op .Noop
              else (st', some (.NotBinaryValue c))) :
                Process × Option ExecutionError).1.events = st'.events ++ tl := by
          intro c st'
          split_ifs
          · obtain ⟨tl2, h2⟩ := match_step_events
              (execute_code_block n body (st'.execute_op .Drop).1) _ (ihW body)
            obtain ⟨tl1, h1⟩ := ihE body (st'.execute_op .Drop).1
            refine ⟨tl1 ++ tl2, h2.trans ?_⟩
            rw [h1, List.append_assoc]
            rfl
          · exact ⟨[], by simp [execute_op_events]⟩
          · exact ⟨[], by simp⟩
        have h_final : ∀ st' : Process, ∃ tl,
            ((if st'.peek = 0 then
                match (st'.execute_op .Drop).2 with
                | some err => ((st'.execute_op .Drop).1, some err)
                | none => ((st'.execute_op .Drop).1.onDecoder (fun d => d.end_loop body), none)
              else if Process.peek { st with events := st.events ++ [CodeBlock.loop body hsh] }
                  = 1 then
                (st', some .UnreachablePanic)
              else (st', some (.NotBinaryValue st'.peek))) :
              Process × Option ExecutionError).1.events = st'.events ++ tl := by
          intro st'
          split_ifs
          · refine ⟨[], ?_⟩
            rw [List.append_nil]
            rfl
          · exact ⟨[], by simp⟩
          · exact ⟨[], by simp⟩
        obtain ⟨tlA, hA⟩ := h_iter
          (Process.peek { st with events := st.events ++ [CodeBlock.loop body hsh] })
          (Process.onDecoder { st with events := st.events ++ [CodeBlock.loop body hsh] }
            (fun d => d.start_loop body
              (Process.peek { st with events := st.events ++ [CodeBlock.loop body hsh] })))
        obtain ⟨tlB, hB⟩ := match_step_events _ _ h_final
        have step : ∀ X : Process × Option ExecutionError,
            X.1.events = (st.events ++ [CodeBlock.loop body hsh]) ++ tlA →
            X.1.events ++ tlB = (st.events ++ [CodeBlock.loop body hsh]) ++ (tlA ++ tlB) := by
          intro X hX
          rw [hX, List.append_assoc]
        exact ⟨tlA ++ tlB, hB.trans (step _ hA)⟩
      | span batches hsh =>
        simp only [execute_code_block]
        have h_end : ∀ st' : Process, ∃ tl, ((st'.end_span_block hsh)).1.events =
            st'.events ++ tl := fun st' => ⟨[], by simp [end_span_block_events st' hsh]⟩
        have h_rest : ∀ st' : Process, ∃ tl,
            ((match Process.exec_batches_rest batches.tail st' with
              | (st, some err) => (st, some err)
              | (st, none) => st.end_span_block hsh) :
                Process × Option ExecutionError).1.events = st'.events ++ tl := by
          intro st'
          obtain ⟨tl2, h2⟩ := match_step_events (Process.exec_batches_rest batches.tail st') _
            h_end
          exact ⟨tl2, h2.trans (by rw [exec_batches_rest_events])⟩
        have h_batch : ∀ st' : Process, ∃ tl,
            ((match st'.execute_op_batch (batches.headD ⟨[], [], fun _ => 0, 0⟩) with
              | (st, some err) => (st, some err)
              | (st, none) =>
                  match Process.exec_batches_rest batches.tail st with
                  | (st, some err) => (st, some err)
                  | (st, none) => st.end_span_block hsh) :
                Process × Option ExecutionError).1.events = st'.events ++ tl := by
          intro st'
          obtain ⟨tl2, h2⟩ := match_step_events
            (st'.execute_op_batch (batches.headD ⟨[], [], fun _ => 0, 0⟩)) _ h_rest
          exact ⟨tl2, h2.trans (by rw [execute_op_batch_events])⟩
        obtain ⟨tl, hx⟩ := match_step_events
          (Process.start_span_block
            { st with events := st.events ++ [CodeBlock.span batches hsh] } batches) _ h_batch
        exact ⟨tl, hx⟩
      | proxy hsh =>
        exact ⟨[], by simp [execute_code_block]⟩
    refine ⟨fun b st => ?_, fun body st => ?_⟩
    · obtain ⟨tl, hx⟩ := hstep b st
      exact ⟨b :: tl, by rw [hx]; simp, fun _ => rfl⟩
    · simp only [execute_loop_while]
      split_ifs with hp
      · obtain ⟨tl2, h2⟩ := match_step_events
          (execute_code_block n body
            (((st.execute_op .Drop).1).onDecoder (fun d => d.loop_repeat body))) _ (ihW body)
        obtain ⟨tl1, h1⟩ := ihE body
          (((st.execute_op .Drop).1).onDecoder (fun d => d.loop_repeat body))
        refine ⟨tl1 ++ tl2, h2.trans ?_⟩
        rw [h1]
        have hev : (((st.execute_op .Drop).1).onDecoder
            (fun d => d.loop_repeat body)).events = st.events := by
          simp [Process.onDecoder, execute_op_events]
        rw [hev]
        exact List.append_assoc _ tl1 tl2
      · exact ⟨[], by simp⟩

/-- One-step unfolding of the interpreter on a Split block: the start step
always succeeds (it executes a `Drop` and hashes), after which the branch is
chosen by the previously peeked condition. -/
theorem execute_code_block_split_unfold (n : Nat) (t f : CodeBlock) (hsh : Word)
    (st : Process) :
    execute_code_block (n + 1) (CodeBlock.split t f hsh) st =
      (if Process.peek { st with events := st.events ++ [CodeBlock.split t f hsh] } = 1 then
        match execute_code_block n t
            (Process.start_split_block
              { st with events := st.events ++ [CodeBlock.split t f hsh] } t f).1 with
        | (st, some err) => (st, some err)
        | (st, none) => st.end_split_block hsh
      else if Process.peek { st with events := st.events ++ [CodeBlock.split t f hsh] } = 0 then
        match execute_code_block n f
            (Process.start_split_block
              { st with events := st.events ++ [CodeBlock.split t f hsh] } t f).1 with
        | (st, some err) => (st, some err)
        | (st, none) => st.end_split_block hsh
      else
        ((Process.start_split_block
            { st with events := st.events ++ [CodeBlock.split t f hsh] } t f).1,
          some (.NotBinaryValue
            (Process.peek { st with events := st.events ++ [CodeBlock.split t f hsh] })))) :=
  rfl

/-- One-step unfolding of the interpreter on a Join block. -/
theorem execute_code_block_join_unfold (n : Nat) (f s : CodeBlock) (hsh : Word)
    (st : Process) :
    execute_code_block (n + 1) (CodeBlock.join f s hsh) st =
      (match execute_code_block n f
          (Process.start_join_block
            { st with events := st.events ++ [CodeBlock.join f s hsh] } f s).1 with
      | (st, some err) => (st, some err)
      | (st, none) =>
        match execute_code_block n s st with
        | (st, some err) => (st, some err)
        | (st, none) => st.end_join_block hsh) := rfl

/-- One-step unfolding of the interpreter on a Loop block. -/
theorem execute_code_block_loop_unfold (n : Nat) (body : CodeBlock) (hsh : Word)
    (st : Process) :
    execute_code_block (n + 1) (CodeBlock.loop body hsh) st =
      (match
        (if Process.peek { st with events := st.events ++ [CodeBlock.loop body hsh] } = 1 then
          match execute_code_block n body
              ((Process.onDecoder { st with events := st.events ++ [CodeBlock.loop body hsh] }
                (fun d => d.start_loop body
                  (Process.peek
                    { st with events := st.events ++ [CodeBlock.loop body hsh] }))).execute_op
                  .Drop).1 with
          | (st, some err) => (st, some err)
          | (st, none) => execute_loop_while n body st
        else if Process.peek { st with events := st.events ++ [CodeBlock.loop body hsh] }
            = 0 then
          (Process.onDecoder { st with events := st.events ++ [CodeBlock.loop body hsh] }
            (fun d => d.start_loop body
              (Process.peek
                { st with events := st.events ++ [CodeBlock.loop body hsh] }))).execute_op
            .Noop
        else
          (Process.onDecoder { st with events := st.events ++ [CodeBlock.loop body hsh] }
            (fun d => d.start_loop body
              (Process.peek { st with events := st.events ++ [CodeBlock.loop body hsh] })),
            some (.NotBinaryValue
              (Process.peek { st with events := st.events ++ [CodeBlock.loop body hsh] })))) with
      | (st', some err) => (st', some err)
      | (st', none) =>
        if st'.peek = 0 then
          ((st'.execute_op .Drop).1.onDecoder (fun d => d.end_loop body), none)
        else if Process.peek { st with events := st.events ++ [CodeBlock.loop body hsh] }
            = 1 then
          (st', some .UnreachablePanic)
        else (st', some (.NotBinaryValue st'.peek))) := rfl

/-- One-step unfolding of the interpreter on a Span block: the body is
fuel-independent, so any successor fuel value gives the same result. -/
theorem execute_code_block_span_unfold (n : Nat) (batches : List OpBatch) (hsh : Word)
    (st : Process) :
    execute_code_block (n + 1) (CodeBlock.span batches hsh) st =
      (match
        (Process.start_span_block
          { st with events := st.events ++ [CodeBlock.span batches hsh] } batches).1.execute_op_batch
          (batches.headD ⟨[], [], fun _ => 0, 0⟩) with
      | (st, some err) => (st, some err)
      | (st, none) =>
        match Process.exec_batches_rest batches.tail st with
        | (st, some err) => (st, some err)
        | (st, none) => st.end_span_block hsh) := rfl

/-- One-step unfolding of the while loop of the Loop executor. -/
theorem execute_loop_while_unfold (n : Nat) (body : CodeBlock) (st : Process) :
    execute_loop_while (n + 1) body st =
      (if st.peek = 1 then
        match execute_code_block n body
            (((st.execute_op .Drop).1).onDecoder (fun d => d.loop_repeat body)) with
        | (st, some err) => (st, some err)
        | (st, none) => execute_loop_while n body st
      else (st, none)) := rfl

/-- Fuel monotonicity: a run that did not exhaust its fuel is unchanged by
any larger fuel budget.  Together with `execute` being a function of its
inputs, this is determinism of execution across runs. -/
theorem exec_fuel_mono : ∀ n : Nat,
    (∀ b st m, n ≤ m → (execute_code_block n b st).2 ≠ some .OutOfFuel →
      execute_code_block m b st = execute_code_block n b st) ∧
    (∀ body st m, n ≤ m → (execute_loop_while n body st).2 ≠ some .OutOfFuel →
      execute_loop_while m body st = execute_loop_while n body st) := by
  intro n
  induction n with
  | zero =>
    exact ⟨fun b st m hm hne => absurd rfl hne, fun body st m hm hne => absurd rfl hne⟩
  | succ n ih =>
    obtain ⟨ihE, ihW⟩ := ih
    constructor
    · intro b st m hm hne
      obtain ⟨m', rfl⟩ : ∃ m', m = m' + 1 := ⟨m - 1, by omega⟩
      have hm' : n ≤ m' := by omega
      cases b with
      | join f s hsh =>
        rw [execute_code_block_join_unfold m' f s hsh st,
          execute_code_block_join_unfold n f s hsh st]
        rw [execute_code_block_join_unfold n f s hsh st] at hne
        rcases h1 : execute_code_block n f
            (Process.start_join_block
              { st with events := st.events ++ [CodeBlock.join f s hsh] } f s).1
          with ⟨st3, e1⟩
        rw [h1] at hne
        cases e1 with
        | some err =>
          have hX : (some err : Option ExecutionError) ≠ some .OutOfFuel := hne
          rw [ihE f _ m' hm' (by rw [h1]; exact hX), h1]
        | none =>
          rw [ihE f _ m' hm' (by rw [h1]; simp), h1]
          show (match execute_code_block m' s st3 with
                | (st, some err) => (st, some err)
                | (st, none) => st.end_join_block hsh) =
              (match execute_code_block n s st3 with
                | (st, some err) => (st, some err)
                | (st, none) => st.end_join_block hsh)
          have hne2 : (match execute_code_block n s st3 with
                | (st, some err) => (st, some err)
                | (st, none) => st.end_join_block hsh).2 ≠ some .OutOfFuel := hne
          rcases h2 : execute_code_block n s st3 with ⟨st4, e2⟩
          rw [h2] at hne2
          cases e2 with
          | some err =>
            have hX : (some err : Option ExecutionError) ≠ some .OutOfFuel := hne2
            rw [ihE s _ m' hm' (by rw [h2]; exact hX), h2]
          | none =>
            rw [ihE s _ m' hm' (by rw [h2]; simp), h2]
      | split t f hsh =>
        rw [execute_code_block_split_unfold m' t f hsh st,
          execute_code_block_split_unfold n t f hsh st]
        rw [execute_code_block_split_unfold n t f hsh st] at hne
        by_cases hc1 : Process.peek
            { st with events := st.events ++ [CodeBlock.split t f hsh] } = 1
        · rw [if_pos hc1] at hne
          rw [if_pos hc1, if_pos hc1]
          rcases h1 : execute_code_block n t
              (Process.start_split_block
                { st with events := st.events ++ [CodeBlock.split t f hsh] } t f).1
            with ⟨st3, e1⟩
          rw [h1] at hne
          cases e1 with
          | some err =>
            have hX : (some err : Option ExecutionError) ≠ some .OutOfFuel := hne
            rw [ihE t _ m' hm' (by rw [h1]; exact hX), h1]
          | none =>
            rw [ihE t _ m' hm' (by rw [h1]; simp), h1]
        · rw [if_neg hc1] at hne
          rw [if_neg hc1, if_neg hc1]
          by_cases hc0 : Process.peek
              { st with events := st.events ++ [CodeBlock.split t f hsh] } = 0
          · rw [if_pos hc0] at hne
            rw [if_pos hc0, if_pos hc0]
            rcases h1 : execute_code_block n f
                (Process.start_split_block
                  { st with events := st.events ++ [CodeBlock.split t f hsh] } t f).1
              with ⟨st3, e1⟩
            rw [h1] at hne
            cases e1 with
            | some err =>
              have hX : (some err : Option ExecutionError) ≠ some .OutOfFuel := hne
              rw [ihE f _ m' hm' (by rw [h1]; exact hX), h1]
            | none =>
              rw [ihE f _ m' hm' (by rw [h1]; simp), h1]
          · rw [if_neg hc0, if_neg hc0]
      | loop body hsh =>
        rw [execute_code_block_loop_unfold m' body hsh st,
          execute_code_block_loop_unfold n body hsh st]
        rw [execute_code_block_loop_unfold n body hsh st] at hne
        by_cases hc1 : Process.peek
            { st with events := st.events ++ [CodeBlock.loop body hsh] } = 1
        · rw [if_pos hc1] at hne
          rw [if_pos hc1, if_pos hc1]
          rcases h1 : execute_code_block n body
              ((Process.onDecoder { st with events := st.events ++ [CodeBlock.loop body hsh] }
                (fun d => d.start_loop body
                  (Process.peek
                    { st with events := st.events ++ [CodeBlock.loop body hsh] }))).execute_op
                  .Drop).1
            with ⟨st3, e1⟩
          rw [h1] at hne
          cases e1 with
          | some err =>
            have hX : (some err : Option ExecutionError) ≠ some .OutOfFuel := hne
            rw [ihE body _ m' hm' (by rw [h1]; exact hX), h1]
          | none =>
            rw [ihE body _ m' hm' (by rw [h1]; simp), h1]
            have hch2 : (execute_loop_while n body st3).2 ≠ some .OutOfFuel := by
              have hne2 : (match execute_loop_while n body st3 with
                  | (st', some err) => (st', some err)
                  | (st', none) =>
                    if st'.peek = 0 then
                      ((st'.execute_op .Drop).1.onDecoder (fun d => d.end_loop body), none)
                    else if Process.peek
                        { st with events := st.events ++ [CodeBlock.loop body hsh] } = 1 then
                      (st', some .UnreachablePanic)
                    else (st', some (.NotBinaryValue st'.peek))).2 ≠ some .OutOfFuel := hne
              rcases h2 : execute_loop_while n body st3 with ⟨st4, e2⟩
              rw [h2] at hne2
              cases e2 with
              | none => simp
              | some err => exact hne2
            show (match execute_loop_while m' body st3 with
                | (st', some err) => (st', some err)
                | (st', none) =>
                  if st'.peek = 0 then
                    ((st'.execute_op .Drop).1.onDecoder (fun d => d.end_loop body), none)
                  else if Process.peek
                      { st with events := st.events ++ [CodeBlock.loop body hsh] } = 1 then
                    (st', some .UnreachablePanic)
                  else (st', some (.NotBinaryValue st'.peek))) =
              (match execute_loop_while n body st3 with
                | (st', some err) => (st', some err)
                | (st', none) =>
                  if st'.peek = 0 then
                    ((st'.execute_op .Drop).1.onDecoder (fun d => d.end_loop body), none)
                  else if Process.peek
                      { st with events := st.events ++ [CodeBlock.loop body hsh] } = 1 then
                    (st', some .UnreachablePanic)
                  else (st', some (.NotBinaryValue st'.peek)))
            rw [ihW body st3 m' hm' hch2]
        · rw [if_neg hc1, if_neg hc1]
      | span batches hsh =>
        rw [execute_code_block_span_unfold m' batches hsh st,
          execute_code_block_span_unfold n batches hsh st]
      | proxy hsh => rfl
    · intro body st m hm hne
      obtain ⟨m', rfl⟩ : ∃ m', m = m' + 1 := ⟨m - 1, by omega⟩
      have hm' : n ≤ m' := by omega
      rw [execute_loop_while_unfold m' body st, execute_loop_while_unfold n body st]
      rw [execute_loop_while_unfold n body st] at hne
      by_cases hp : st.peek = 1
      · rw [if_pos hp] at hne
        rw [if_pos hp, if_pos hp]
        rcases h1 : execute_code_block n body
            (((st.execute_op .Drop).1).onDecoder (fun d => d.loop_repeat body))
          with ⟨st3, e1⟩
        rw [h1] at hne
        cases e1 with
        | some err =>
          have hX : (some err : Option ExecutionError) ≠ some .OutOfFuel := hne
          rw [ihE body _ m' hm' (by rw [h1]; exact hX), h1]
        | none =>
          rw [ihE body _ m' hm' (by rw [h1]; simp), h1]
          have hch2 : (execute_loop_while n body st3).2 ≠ some .OutOfFuel := hne
          show execute_loop_while m' body st3 = execute_loop_while n body st3
          exact ihW body st3 m' hm' hch2
      · rw [if_neg hp, if_neg hp]

/-! ## Claim theorems -/

/-- C9: for every Loop block and every condition value, `Decoder::start_loop`,
`Decoder::repeat` and `Decoder::end_loop` leave the entire decoder state
unchanged — no trace row is appended to any column and the block stack is not
modified (the three bodies are `// TODO: implement` in `decoder/mod.rs`). -/
theorem loop_decoder_noops (d : Decoder) (body : CodeBlock) (condition : Felt) :
    d.start_loop body condition = d ∧ d.loop_repeat body = d ∧ d.end_loop body = d ∧
    (d.start_loop body condition).trace = d.trace ∧
    (d.start_loop body condition).block_stack = d.block_stack ∧
    (d.loop_repeat body).trace = d.trace ∧
    (d.loop_repeat body).block_stack = d.block_stack ∧
    (d.end_loop body).trace = d.trace ∧
    (d.end_loop body).block_stack = d.block_stack :=
  ⟨rfl, rfl, rfl, rfl, rfl, rfl, rfl, rfl, rfl⟩

/-- C1: `DecoderTrace::append_user_op` appends to the op-group-count column
the previous row's count minus one exactly when the previously executed op
(as recorded in the span cursor) was `Span` or `Respan`, or carried an
immediate value, or the previous row's first hasher register (the last op
group) was zero; in every other case it appends the previous count unchanged. -/
theorem append_user_op_group_count (t : DecoderTrace) (span_addr : Felt) (op : Operation)
    (_hgc : t.group_count_trace ≠ []) (_hh : t.hasher_trace OP_GROUP_IDX ≠ []) :
    (t.append_user_op span_addr op).group_count_trace =
      t.group_count_trace ++
        [if (t.span_cursor.last_op = .Span ∨ t.span_cursor.last_op = .Respan)
            ∨ (t.span_cursor.last_op.imm_value).isSome
            ∨ t.last_op_group = 0
         then t.last_group_count - 1
         else t.last_group_count] := by
  simp only [DecoderTrace.append_user_op, DecoderTrace.last_op_group,
    DecoderTrace.last_group_count, DecoderTrace.append_opcode]
  split_ifs <;> simp_all [SpanCursor.read_group]

/-- C3: for a Split block, with the child invocations observed through the
interpreter's entry log (`events`): when the stack top is `ONE` the block
entered right after the split itself is `on_true`; when it is `ZERO` it is
`on_false`; and for every other condition value `c` the interpreter returns
`NotBinaryValue c` and enters neither child — the only logged entry is the
split block itself (so only the `start_split` work happened). -/
theorem split_condition_dispatch (n : Nat) (t f : CodeBlock) (hsh : Word) (st : Process) :
    (st.peek ≠ 0 → st.peek ≠ 1 →
      (execute_code_block (n + 2) (CodeBlock.split t f hsh) st).2 =
          some (.NotBinaryValue st.peek) ∧
        (execute_code_block (n + 2) (CodeBlock.split t f hsh) st).1.events.drop
            st.events.length = [CodeBlock.split t f hsh]) ∧
    (st.peek = 1 →
      ((execute_code_block (n + 2) (CodeBlock.split t f hsh) st).1.events.drop
          st.events.length).get? 1 = some t) ∧
    (st.peek = 0 →
      ((execute_code_block (n + 2) (CodeBlock.split t f hsh) st).1.events.drop
          st.events.length).get? 1 = some f) := by
  have h_end : ∀ st' : Process, ∃ tl, ((st'.end_split_block hsh)).1.events =
      st'.events ++ tl := fun st' => ⟨[], by simp [end_split_block_events st' hsh]⟩
  refine ⟨?_, ?_, ?_⟩
  · intro h0 h1
    rw [execute_code_block_split_unfold (n + 1) t f hsh st]
    have h1' : ¬(Process.peek { st with events := st.events ++ [CodeBlock.split t f hsh] }
        = 1) := h1
    have h0' : ¬(Process.peek { st with events := st.events ++ [CodeBlock.split t f hsh] }
        = 0) := h0
    rw [if_neg h1', if_neg h0']
    refine ⟨rfl, ?_⟩
    show (st.events ++ [CodeBlock.split t f hsh]).drop st.events.length =
      [CodeBlock.split t f hsh]
    exact List.drop_left _ _
  · intro h1
    rw [execute_code_block_split_unfold (n + 1) t f hsh st]
    have h1' : Process.peek { st with events := st.events ++ [CodeBlock.split t f hsh] }
        = 1 := h1
    rw [if_pos h1']
    obtain ⟨tl, htl, hhead⟩ := (exec_events_extend (n + 1)).1 t
      (Process.start_split_block { st with events := st.events ++ [CodeBlock.split t f hsh] }
        t f).1
    obtain ⟨tl2, h2⟩ := match_step_events
      (execute_code_block (n + 1) t
        (Process.start_split_block { st with events := st.events ++ [CodeBlock.split t f hsh] }
          t f).1) _ h_end
    rw [h2, htl]
    rcases tl with _ | ⟨a, tl'⟩
    · simp at hhead
    · have ha : a = t := by simpa using hhead (by omega)
      show ((((st.events ++ [CodeBlock.split t f hsh]) ++ a :: tl') ++ tl2).drop
          st.events.length).get? 1 = some t
      rw [List.append_assoc, List.append_assoc, List.drop_left]
      simpa using ha
  · intro h0
    rw [execute_code_block_split_unfold (n + 1) t f hsh st]
    have h1' : ¬(Process.peek { st with events := st.events ++ [CodeBlock.split t f hsh] }
        = 1) := by
      show ¬(st.peek = 1)
      rw [h0]
      decide
    have h0' : Process.peek { st with events := st.events ++ [CodeBlock.split t f hsh] }
        = 0 := h0
    rw [if_neg h1', if_pos h0']
    obtain ⟨tl, htl, hhead⟩ := (exec_events_extend (n + 1)).1 f
      (Process.start_split_block { st with events := st.events ++ [CodeBlock.split t f hsh] }
        t f).1
    obtain ⟨tl2, h2⟩ := match_step_events
      (execute_code_block (n + 1) f
        (Process.start_split_block { st with events := st.events ++ [CodeBlock.split t f hsh] }
          t f).1) _ h_end
    rw [h2, htl]
    rcases tl with _ | ⟨a, tl'⟩
    · simp at hhead
    · have ha : a = f := by simpa using hhead (by omega)
      show ((((st.events ++ [CodeBlock.split t f hsh]) ++ a :: tl') ++ tl2).drop
          st.events.length).get? 1 = some f
      rw [List.append_assoc, List.append_assoc, List.drop_left]
      simpa using ha

/-- Witness for C3: with condition `2` on the stack, executing a Split of two
proxy blocks fails with `NotBinaryValue 2` and enters neither child; with
condition `1`, the entry logged right after the split is the `on_true` child. -/
theorem split_condition_dispatch_witness :
    ((2 : Felt) ≠ 0 ∧ (2 : Felt) ≠ 1) ∧
    ((execute_code_block 2 (CodeBlock.split (.proxy (fun _ => 1)) (.proxy (fun _ => 2))
        (fun _ => 0)) (Process.init ⟨[2], []⟩)).2 =
      some (.NotBinaryValue 2) ∧
    (execute_code_block 2 (CodeBlock.split (.proxy (fun _ => 1)) (.proxy (fun _ => 2))
        (fun _ => 0)) (Process.init ⟨[2], []⟩)).1.events.drop 0 =
      [CodeBlock.split (.proxy (fun _ => 1)) (.proxy (fun _ => 2)) (fun _ => 0)]) ∧
    ((execute_code_block 2 (CodeBlock.split (.proxy (fun _ => 1)) (.proxy (fun _ => 2))
        (fun _ => 0)) (Process.init ⟨[1], []⟩)).1.events.drop 0).get? 1 =
      some (.proxy (fun _ => 1)) := by
  refine ⟨⟨by decide, by decide⟩, ?_, ?_⟩
  · have h := (split_condition_dispatch 0 (.proxy (fun _ => 1)) (.proxy (fun _ => 2))
      (fun _ => 0) (Process.init ⟨[2], []⟩)).1 (by decide) (by decide)
    exact h
  · have h := (split_condition_dispatch 0 (.proxy (fun _ => 1)) (.proxy (fun _ => 2))
      (fun _ => 0) (Process.init ⟨[1], []⟩)).2.1 (by decide)
    exact h

/-- Witness for C1: a freshly started span (group count 3, first op group 2)
followed by an `Incr` user op; the previous op is `Span`, so the count drops
from 3 to 2. -/
theorem append_user_op_group_count_witness :
    (DecoderTrace.new.append_span_start 0 (fun _ => 2) 3).group_count_trace ≠ [] ∧
    (DecoderTrace.new.append_span_start 0 (fun _ => 2) 3).hasher_trace OP_GROUP_IDX ≠ [] ∧
    ((DecoderTrace.new.append_span_start 0 (fun _ => 2) 3).append_user_op 0
        .Incr).group_count_trace = [3, 2] :=
  ⟨by decide, by decide, by
    have h := append_user_op_group_count (DecoderTrace.new.append_span_start 0 (fun _ => 2) 3)
      0 .Incr (by decide) (by decide)
    rw [h]; decide⟩

theorem finRange_seven : List.finRange 7 = [0, 1, 2, 3, 4, 5, 6] := rfl

theorem finRange_twelve : List.finRange 12 = [0, 1, 2, 3, 4, 5, 6, 7, 8, 9, 10, 11] := rfl

/-- C7: `DecoderTrace::into_vec` resizes every decoder column to the requested
`trace_len`: beyond the filled rows, the address, in-span, hasher and
group-count columns read `ZERO` and each op-bits column reads the matching bit
of the `Halt` opcode, so every padding row decodes to `Halt`. -/
theorem into_vec_resizes (t : DecoderTrace) (trace_len nrr : Nat) :
    (t.into_vec trace_len nrr).length = 22 ∧
    (∀ k, k < 22 → ((t.into_vec trace_len nrr).getD k []).length = trace_len) ∧
    (∀ j, t.addr_trace.length ≤ j → j < trace_len →
      ((t.into_vec trace_len nrr).getD 0 []).getD j 2 = 0) ∧
    (∀ i : Fin 7, ∀ j, (t.op_bits_trace i).length ≤ j → j < trace_len →
      ((t.into_vec trace_len nrr).getD (1 + i.val) []).getD j 2 =
        (((Operation.Halt.op_codeD >>> i.val) &&& 1 : Nat) : Felt)) ∧
    (∀ j, t.in_span_trace.length ≤ j → j < trace_len →
      ((t.into_vec trace_len nrr).getD 8 []).getD j 2 = 0) ∧
    (∀ i : Fin 12, ∀ j, (t.hasher_trace i).length ≤ j → j < trace_len →
      ((t.into_vec trace_len nrr).getD (9 + i.val) []).getD j 2 = 0) ∧
    (∀ j, t.group_count_trace.length ≤ j → j < trace_len →
      ((t.into_vec trace_len nrr).getD 21 []).getD j 2 = 0) := by
  refine ⟨?_, ?_, ?_, ?_, ?_, ?_, ?_⟩
  · simp [DecoderTrace.into_vec, finRange_seven, finRange_twelve]
  · intro k hk
    interval_cases k <;>
      simp [DecoderTrace.into_vec, finRange_seven, finRange_twelve, fillResize_length]
  · intro j h1 h2
    simpa [DecoderTrace.into_vec, finRange_seven, finRange_twelve] using
      fillResize_getD_of_ge _ _ _ _ _ h1 h2
  · intro i j h1 h2
    fin_cases i <;>
      simpa [DecoderTrace.into_vec, finRange_seven, finRange_twelve] using
        fillResize_getD_of_ge _ _ _ _ _ h1 h2
  · intro j h1 h2
    simpa [DecoderTrace.into_vec, finRange_seven, finRange_twelve] using
      fillResize_getD_of_ge _ _ _ _ _ h1 h2
  · intro i j h1 h2
    fin_cases i <;>
      simpa [DecoderTrace.into_vec, finRange_seven, finRange_twelve] using
        fillResize_getD_of_ge _ _ _ _ _ h1 h2
  · intro j h1 h2
    simpa [DecoderTrace.into_vec, finRange_seven, finRange_twelve] using
      fillResize_getD_of_ge _ _ _ _ _ h1 h2

/-- Witness for C7: finalizing an empty decoder trace at `trace_len = 4`
yields 22 columns of length 4; the address column pads with `ZERO` and op-bits
column 0 pads with bit 0 of the `Halt` opcode. -/
theorem into_vec_resizes_witness :
    (DecoderTrace.new.into_vec 4 0).length = 22 ∧
    ((DecoderTrace.new.into_vec 4 0).getD 0 []).length = 4 ∧
    ((DecoderTrace.new.into_vec 4 0).getD 0 []).getD 3 2 = 0 ∧
    ((DecoderTrace.new.into_vec 4 0).getD 1 []).getD 3 2 =
      (((Operation.Halt.op_codeD >>> 0) &&& 1 : Nat) : Felt) := by
  have h := into_vec_resizes DecoderTrace.new 4 0
  refine ⟨h.1, h.2.1 0 (by decide), h.2.2.1 3 (by decide) (by decide), ?_⟩
  simpa using h.2.2.2.1 (0 : Fin 7) 3 (by decide) (by decide)

/-- C6: on `pushw.mem` the parser appends exactly
`[Pad, Pad, Pad, Pad, MovUp4, LoadW]` to the sink, and on `pushw.mem.a` with a
valid field-element address literal it appends exactly
`[Pad, Pad, Pad, Pad, Push(a), LoadW]`. -/
theorem parse_pushw_mem_lowering (span_ops : List Operation) (pos : Nat) (s : String)
    (a : Felt) (ha : parseFieldLit s = some a) :
    parse_pushw span_ops ⟨["pushw", "mem"], pos⟩ =
      (span_ops ++ [.Pad, .Pad, .Pad, .Pad, .MovUp4, .LoadW], none) ∧
    parse_pushw span_ops ⟨["pushw", "mem", s], pos⟩ =
      (span_ops ++ [.Pad, .Pad, .Pad, .Pad, .Push a, .LoadW], none) := by
  constructor
  · simp [parse_pushw, parse_mem_read, validate_op_len, Token.num_parts]
  · simp [parse_pushw, parse_mem_read, validate_op_len, Token.num_parts,
      parse_element_param, ha]

/-- Witness for C6: the address literal `"0"` parses to the field element `0`
and `pushw.mem.0` lowers to `[Pad, Pad, Pad, Pad, Push(0), LoadW]`. -/
theorem parse_pushw_mem_lowering_witness :
    parseFieldLit "0" = some 0 ∧
    parse_pushw [] ⟨["pushw", "mem", "0"], 0⟩ =
      ([.Pad, .Pad, .Pad, .Pad, .Push 0, .LoadW], none) :=
  ⟨by decide, (parse_pushw_mem_lowering [] 0 "0" 0 (by decide)).2⟩

/-- C10: `parse_pushw` is not atomic on failure: on `pushw.mem.p` with an
invalid address literal `p` it returns `InvalidParam(2)` only after the four
`Pad` operations are already in the sink, which is therefore longer than
before the call. -/
theorem parse_pushw_mem_invalid_addr_partial_sink (span_ops : List Operation) (pos : Nat)
    (s : String) (hs : parseFieldLit s = none) :
    parse_pushw span_ops ⟨["pushw", "mem", s], pos⟩ =
      (span_ops ++ [.Pad, .Pad, .Pad, .Pad],
        some (.invalid_param ⟨["pushw", "mem", s], pos⟩ 2)) ∧
    span_ops.length <
      (parse_pushw span_ops ⟨["pushw", "mem", s], pos⟩).1.length := by
  have hmain : parse_pushw span_ops ⟨["pushw", "mem", s], pos⟩ =
      (span_ops ++ [.Pad, .Pad, .Pad, .Pad],
        some (.invalid_param ⟨["pushw", "mem", s], pos⟩ 2)) := by
    simp [parse_pushw, parse_mem_read, validate_op_len, Token.num_parts,
      parse_element_param, hs]
  refine ⟨hmain, ?_⟩
  rw [hmain]
  simp

/-- Witness for C10: the invalid literal `"abc"` leaves four `Pad`s behind. -/
theorem parse_pushw_mem_invalid_addr_partial_sink_witness :
    parseFieldLit "abc" = none ∧
    parse_pushw [] ⟨["pushw", "mem", "abc"], 0⟩ =
      ([.Pad, .Pad, .Pad, .Pad], some (.invalid_param ⟨["pushw", "mem", "abc"], 0⟩ 2)) :=
  ⟨by decide, (parse_pushw_mem_invalid_addr_partial_sink [] 0 "abc" (by decide)).1⟩

/-- Counterexample to C4 (as stated): on `push.adv.0x10` — a hex form —
`parse_push` returns the bare `InvalidParam(2)` error, which is distinct from
the `InvalidParamWithReason` error carrying the bounds reason string; so a hex
parameter does not produce an error "carrying the reason string". -/
theorem parse_push_adv_hex_no_reason :
    parse_push [] ⟨["push", "adv", "0x10"], 0⟩ =
      ([], some (.invalid_param ⟨["push", "adv", "0x10"], 0⟩ 2)) ∧
    (AssemblyError.invalid_param ⟨["push", "adv", "0x10"], 0⟩ 2 ≠
      .invalid_param_with_reason ⟨["push", "adv", "0x10"], 0⟩ 2 advice_bound_reason) := by
  constructor
  · decide
  · decide

/-- C4 (amended): for `push.adv.p`, a parameter that is not a plain decimal
numeral (hex forms and other non-decimal text) yields `InvalidParam(2)`
without a reason string; a decimal parameter equal to zero or greater than 16
yields `InvalidParam` carrying the reason string "parameter value must be
greater than or equal to 1 and less than or equal to 16"; and a decimal `n`
with `1 ≤ n ≤ 16` succeeds, appending exactly `n` `Read` operations to the
sink. -/
theorem parse_push_adv_cases (span_ops : List Operation) (pos : Nat) (s : String) :
    (parseDecNat s = none →
      parse_push span_ops ⟨["push", "adv", s], pos⟩ =
        (span_ops, some (.invalid_param ⟨["push", "adv", s], pos⟩ 2))) ∧
    (∀ n, parseDecNat s = some n → n = 0 ∨ 16 < n →
      parse_push span_ops ⟨["push", "adv", s], pos⟩ =
        (span_ops,
          some (.invalid_param_with_reason ⟨["push", "adv", s], pos⟩ 2 advice_bound_reason))) ∧
    (∀ n, parseDecNat s = some n → 1 ≤ n → n ≤ 16 →
      parse_push span_ops ⟨["push", "adv", s], pos⟩ =
        (span_ops ++ List.replicate n .Read, none)) := by
  refine ⟨?_, ?_, ?_⟩
  · intro h
    simp [parse_push, parse_push_adv, validate_op_len, Token.num_parts, parse_int_param, h]
  · intro n hn hbound
    have hs : ("parameter value must be greater than or equal to " ++ toString 1
        ++ " and less than or equal to " ++ toString 16) = advice_bound_reason := by decide
    rcases hbound with rfl | hgt
    · simp [parse_push, parse_push_adv, validate_op_len, Token.num_parts,
        parse_int_param, hn, hs]
    · simp [parse_push, parse_push_adv, validate_op_len, Token.num_parts,
        parse_int_param, hn, hs, hgt]
  · intro n hn h1 h16
    have hne : ¬(n = 0) := by omega
    have hle : ¬(16 < n) := by omega
    simp [parse_push, parse_push_adv, validate_op_len, Token.num_parts,
      parse_int_param, hn, hne, hle]

/-- C5: after the operations of a batch have been executed,
`Process::execute_op_batch` executes exactly one padding `Noop` per missing
group — one decoder row per noop, decoding to `Noop`, in-span — so that the
number of groups processed (`group_idx` plus the padding noops) reaches
`batch.num_groups().next_power_of_two()`; the padding itself never fails. -/
theorem execute_op_batch_pads_to_power_of_two (batch : OpBatch) (st : Process)
    (h : (Process.exec_batch_ops batch.ops batch.op_counts st ⟨0, 0, 1⟩).2.2 = none) :
    (st.execute_op_batch batch).2 = none ∧
    (st.execute_op_batch batch).1.decoder.trace.addr_trace.length =
      (Process.exec_batch_ops batch.ops batch.op_counts st
          ⟨0, 0, 1⟩).1.decoder.trace.addr_trace.length +
        (nextPow2 batch.num_groups -
          (Process.exec_batch_ops batch.ops batch.op_counts st ⟨0, 0, 1⟩).2.1.group_idx) ∧
    ((Process.exec_batch_ops batch.ops batch.op_counts st ⟨0, 0, 1⟩).2.1.group_idx ≤
        nextPow2 batch.num_groups →
      (Process.exec_batch_ops batch.ops batch.op_counts st ⟨0, 0, 1⟩).2.1.group_idx +
        (nextPow2 batch.num_groups -
          (Process.exec_batch_ops batch.ops batch.op_counts st ⟨0, 0, 1⟩).2.1.group_idx) =
        nextPow2 batch.num_groups) ∧
    (∀ i : Fin 7, (st.execute_op_batch batch).1.decoder.trace.op_bits_trace i =
      (Process.exec_batch_ops batch.ops batch.op_counts st
          ⟨0, 0, 1⟩).1.decoder.trace.op_bits_trace i ++
        List.replicate (nextPow2 batch.num_groups -
          (Process.exec_batch_ops batch.ops batch.op_counts st ⟨0, 0, 1⟩).2.1.group_idx) 0) := by
  rcases hm : Process.exec_batch_ops batch.ops batch.op_counts st ⟨0, 0, 1⟩ with ⟨st1, ctx, e⟩
  have he : e = none := by
    have := h
    rw [hm] at this
    exact this
  subst he
  have hrun : st.execute_op_batch batch =
      Process.exec_pad_noops (nextPow2 batch.num_groups - ctx.group_idx) st1 := by
    simp only [Process.execute_op_batch, hm]
  obtain ⟨h1, h2, h3, _⟩ := exec_pad_noops_spec (nextPow2 batch.num_groups - ctx.group_idx) st1
  refine ⟨by rw [hrun]; exact h1, by rw [hrun]; exact h2, fun hle => by omega,
    fun i => by rw [hrun]; exact h3 i⟩

/-- Witness for C5: on the three-group batch, the main loop ends with
`group_idx = 3` and the padding adds exactly one decoder row
(`next_power_of_two 3 = 4`), taking the row count from 4 to 5. -/
theorem execute_op_batch_pads_to_power_of_two_witness :
    (Process.exec_batch_ops three_group_batch.ops three_group_batch.op_counts
      span_start_state ⟨0, 0, 1⟩).2.2 = none ∧
    (Process.exec_batch_ops three_group_batch.ops three_group_batch.op_counts
      span_start_state ⟨0, 0, 1⟩).2.1.group_idx = 3 ∧
    nextPow2 three_group_batch.num_groups = 4 ∧
    (span_start_state.execute_op_batch three_group_batch).1.decoder.trace.addr_trace.length =
      (Process.exec_batch_ops three_group_batch.ops three_group_batch.op_counts
          span_start_state ⟨0, 0, 1⟩).1.decoder.trace.addr_trace.length + 1 := by
  refine ⟨by decide, by decide, by decide, ?_⟩
  have h := (execute_op_batch_pads_to_power_of_two three_group_batch span_start_state
    (by decide)).2.1
  rw [h]
  decide

/-- C2 fails on the code (`code_bug`): executing the three-group span pads
with one NOOP whose decoder row hits the "previous op group went to zero"
branch of `append_user_op`, decrementing the already-zero group count to
`p - 1`; the op-group-count column therefore *increases* from row 3 to row 4
(both in-span rows), and `append_span_end` carries `p - 1`, not zero, into
the END row — contradicting both halves of the claim and the source's own
comment "This group count must be ZERO". -/
theorem span_group_count_violated :
    (execute_code_block 1 three_group_span (Process.init empty_inputs)).2 = none ∧
    (execute_code_block 1 three_group_span
        (Process.init empty_inputs)).1.decoder.trace.group_count_trace =
      [3, 2, 1, 0, 18446744069414584320, 18446744069414584320] ∧
    (execute_code_block 1 three_group_span
        (Process.init empty_inputs)).1.decoder.trace.in_span_trace = [0, 1, 1, 1, 1, 0] ∧
    ((execute_code_block 1 three_group_span
        (Process.init empty_inputs)).1.decoder.trace.group_count_trace.getD 3 0).val <
      ((execute_code_block 1 three_group_span
        (Process.init empty_inputs)).1.decoder.trace.group_count_trace.getD 4 0).val ∧
    (execute_code_block 1 three_group_span
        (Process.init empty_inputs)).1.decoder.trace.group_count_trace.getLastD 0 ≠ 0 := by
  decide

/-- C8: execution is deterministic.  `execute` is a pure function of the
script and the inputs, and its result does not depend on the interpreter's
fuel budget: any two runs whose budgets sufficed (neither returned the model
artifact `OutOfFuel`, which corresponds to no behavior of the source) produce
identical results — the same finalized trace, or the same error. -/
theorem execute_deterministic (script : Script) (inputs : ProgramInputs) (n m : Nat)
    (hn : execute n script inputs ≠ .error .OutOfFuel)
    (hm : execute m script inputs ≠ .error .OutOfFuel) :
    execute n script inputs = execute m script inputs := by
  have key : ∀ k, execute k script inputs ≠ .error .OutOfFuel →
      (execute_code_block k script.root (Process.init inputs)).2 ≠ some .OutOfFuel := by
    intro k hk hcontra
    apply hk
    show (match execute_code_block k script.root (Process.init inputs) with
      | (st, none) => Except.ok (finalize_trace st, script.script_hash)
      | (_, some err) => Except.error err) = Except.error .OutOfFuel
    rcases hr : execute_code_block k script.root (Process.init inputs) with ⟨stx, ex⟩
    rw [hr] at hcontra
    cases ex with
    | none => exact Option.noConfusion hcontra
    | some e =>
      have he : e = .OutOfFuel := by
        have := hcontra
        simpa using this
      rw [he]
  rcases Nat.le_total n m with h | h
  · have heq := (exec_fuel_mono n).1 script.root (Process.init inputs) m h (key n hn)
    show (match execute_code_block n script.root (Process.init inputs) with
      | (st, none) => Except.ok (finalize_trace st, script.script_hash)
      | (_, some err) => Except.error err) =
      (match execute_code_block m script.root (Process.init inputs) with
      | (st, none) => Except.ok (finalize_trace st, script.script_hash)
      | (_, some err) => Except.error err)
    rw [heq]
  · have heq := (exec_fuel_mono m).1 script.root (Process.init inputs) n h (key m hm)
    show (match execute_code_block n script.root (Process.init inputs) with
      | (st, none) => Except.ok (finalize_trace st, script.script_hash)
      | (_, some err) => Except.error err) =
      (match execute_code_block m script.root (Process.init inputs) with
      | (st, none) => Except.ok (finalize_trace st, script.script_hash)
      | (_, some err) => Except.error err)
    rw [heq]

/-- Witness for C8: two runs (with budgets 1 and 2) of a proxy-rooted script
both fail with `UnexecutableCodeBlock` and return identical results. -/
theorem execute_deterministic_witness :
    (execute 1 ⟨.proxy (fun _ => 0), fun _ => 0⟩ ⟨[], []⟩ ≠ .error .OutOfFuel) ∧
    (execute 2 ⟨.proxy (fun _ => 0), fun _ => 0⟩ ⟨[], []⟩ ≠ .error .OutOfFuel) ∧
    execute 1 ⟨.proxy (fun _ => 0), fun _ => 0⟩ ⟨[], []⟩ =
      execute 2 ⟨.proxy (fun _ => 0), fun _ => 0⟩ ⟨[], []⟩ := by
  refine ⟨?_, ?_, execute_deterministic _ _ 1 2 ?_ ?_⟩ <;>
    · intro h
      exact absurd (Except.error.inj h) (by intro hx; cases hx)

/-- Witness for C4: `push.adv.3` parses the decimal `3` and appends three
`Read` operations. -/
theorem parse_push_adv_cases_witness :
    parseDecNat "3" = some 3 ∧
    parse_push [] ⟨["push", "adv", "3"], 0⟩ = ([.Read, .Read, .Read], none) := by
  refine ⟨by decide, ?_⟩
  have h := (parse_push_adv_cases [] 0 "3").2.2 3 (by decide) (by decide) (by decide)
  simpa using h

end Miden
